import Mathlib

/-!
Shallow embedding of the `lidar_tracker` Python package
(`background.py`, `clustering.py`, `tracker.py`, `trajectory.py`,
`engine.py`, `types.py`, `_math.py`).

Modelling conventions:
* Python floats carrying millimetre distances and coordinates are modelled
  as `ℚ`; Python ints as `ℕ` (counters, sizes, ids) or `ℤ` (cluster labels,
  grid cell coordinates, where the source uses negative values).
* `numpy` arrays indexed by bin are modelled as total functions from the
  index type; `np.inf` entries of the background array are `none`.
* `math.sqrt` has no rational counterpart, so every quantity the source
  stores as a Euclidean distance is carried as its square, and every
  comparison `sqrt s ⋈ r` the source performs is translated to the
  equivalent rational comparison on squares (`sqrtLeQ`, `sqrtGtQ` below);
  for nonnegative `s` these are exactly `Real.sqrt s ≤ r` / `Real.sqrt s > r`.
  Order of sorted cost triples is unchanged because `sqrt` is strictly
  monotone and injective on nonnegative arguments.
* `math.cos`/`math.sin` (used only by `_math.polar_to_cartesian`) are
  transcendental; the engine embedding is parametrised by a function
  `trig : ℚ → ℚ × ℚ` standing for `(cos ∘ radians, sin ∘ radians)`.
-/

/-- `types.PolarPoint`: a single lidar measurement in polar coordinates. -/
structure PolarPoint where
  angle_deg : ℚ
  distance_mm : ℚ
deriving DecidableEq, Repr

/-- `types.CartesianPoint`: a point in 2D cartesian space (mm). -/
structure CartesianPoint where
  x : ℚ
  y : ℚ
deriving DecidableEq, Repr

/-- `types.Cluster`. The source stores `bounding_radius_mm`; we store its
square `boundingRadiusSq` (see header comment on `sqrt`). -/
structure Cluster where
  centroid : CartesianPoint
  points : List CartesianPoint
  boundingRadiusSq : ℚ
deriving DecidableEq, Repr

/-- `types.TrackedObject`: published view of a confirmed visible track. -/
structure TrackedObject where
  object_id : ℕ
  centroid : CartesianPoint
  velocity : CartesianPoint
  boundingRadiusSq : ℚ
  age : ℕ
  points : List CartesianPoint
deriving DecidableEq, Repr

/-- `types.TrajectoryPoint`. -/
structure TrajectoryPoint where
  x : ℚ
  y : ℚ
  frame_number : ℕ
  timestamp : Option ℚ
deriving DecidableEq, Repr

/-- `types.TrackingFrame`. -/
structure TrackingFrame where
  frame_number : ℕ
  objects : List TrackedObject
  timestamp : Option ℚ
deriving DecidableEq, Repr

/-- Python `int(q)`: truncation of a rational toward zero
(`int()` applied to the result of float floor-division or plain division). -/
def truncQ (q : ℚ) : ℤ := if 0 ≤ q then ⌊q⌋ else -⌊-q⌋

/-- Squared Euclidean distance between two cartesian points. -/
def distSq (a b : CartesianPoint) : ℚ := (a.x - b.x) ^ 2 + (a.y - b.y) ^ 2

/-- `sqrt s ≤ r`, expressed on the square `s` (valid for `0 ≤ s`). -/
abbrev sqrtLeQ (s r : ℚ) : Prop := 0 ≤ r ∧ s ≤ r * r

/-- `sqrt s > r`, expressed on the square `s` (valid for `0 ≤ s`). -/
abbrev sqrtGtQ (s r : ℚ) : Prop := r < 0 ∨ r * r < s

/-- `background.BackgroundModel`: configuration and mutable state.
`background b = none` models the `np.inf` initial entry. -/
structure BackgroundModel where
  numBins : ℕ
  learningRate : ℚ
  threshold : ℚ
  minFrames : ℕ
  background : ℕ → Option ℚ
  binCounts : ℕ → ℕ
  frameCount : ℕ

/-- `BackgroundModel.__init__`. -/
def BackgroundModel.init (angle_bins : ℕ) (learning_rate : ℚ)
    (foreground_threshold_mm : ℚ) (min_learning_frames : ℕ) : BackgroundModel :=
  { numBins := angle_bins
    learningRate := learning_rate
    threshold := foreground_threshold_mm
    minFrames := min_learning_frames
    background := fun _ => none
    binCounts := fun _ => 0
    frameCount := 0 }

/-- `BackgroundModel._angle_to_bin`:
`int(angle_deg / self._bin_width) % self._num_bins` with
`bin_width = 360 / angle_bins`; Python `%` on a positive modulus is `Int.emod`. -/
def BackgroundModel.angleToBin (m : BackgroundModel) (angle_deg : ℚ) : ℕ :=
  ((truncQ (angle_deg / ((360 : ℚ) / (m.numBins : ℚ)))).emod (m.numBins : ℤ)).toNat

/-- Body of the `for p in points` loop of `BackgroundModel.update`. -/
def BackgroundModel.updatePoint (m : BackgroundModel) (p : PolarPoint) : BackgroundModel :=
  let b := m.angleToBin p.angle_deg
  let bumped : ℕ → ℕ := fun j => if j = b then m.binCounts j + 1 else m.binCounts j
  if m.binCounts b = 0 then
    { m with
      background := fun j => if j = b then some p.distance_mm else m.background j
      binCounts := bumped }
  else
    match m.background b with
    | none =>
      -- `np.inf` entry with a nonzero count: `p.distance_mm >= inf - T` is false,
      -- so the source leaves the background unchanged and only bumps the count.
      { m with binCounts := bumped }
    | some v =>
      if v - m.threshold ≤ p.distance_mm then
        { m with
          background := fun j =>
            if j = b then some (v + m.learningRate * (p.distance_mm - v))
            else m.background j
          binCounts := bumped }
      else
        { m with binCounts := bumped }

/-- `BackgroundModel.update`. -/
def BackgroundModel.update (m : BackgroundModel) (points : List PolarPoint) :
    BackgroundModel :=
  let m' := points.foldl BackgroundModel.updatePoint m
  { m' with frameCount := m'.frameCount + 1 }

/-- `BackgroundModel.is_ready`. -/
def BackgroundModel.isReady (m : BackgroundModel) : Bool :=
  decide (m.minFrames ≤ m.frameCount)

/-- `BackgroundModel.classify`. -/
def BackgroundModel.classify (m : BackgroundModel) (points : List PolarPoint) :
    List PolarPoint :=
  if m.isReady then
    points.filter fun p =>
      match m.background (m.angleToBin p.angle_deg) with
      | none => false
      | some v => decide (m.threshold < v - p.distance_mm)
  else []

/-- `BackgroundModel.reset`. -/
def BackgroundModel.reset (m : BackgroundModel) : BackgroundModel :=
  { m with background := fun _ => none, binCounts := fun _ => 0, frameCount := 0 }

/-- Feed a sequence of scans to `update`, in order. -/
def BackgroundModel.updateMany (m : BackgroundModel) (scans : List (List PolarPoint)) :
    BackgroundModel :=
  scans.foldl BackgroundModel.update m

/-- Grid cell of a point: `(int(x // cell_size), int(y // cell_size))`.
Python `//` on floats is floor division, so this is `⌊x / eps⌋`. -/
def cellOf (eps : ℚ) (p : CartesianPoint) : ℤ × ℤ := (⌊p.x / eps⌋, ⌊p.y / eps⌋)

/-- The `cells` grid index of `clustering._grid_dbscan`: a map from cell
coordinates to the indices assigned to that cell, in input order
(`defaultdict(list)` with `cells[(cx, cy)].append(i)`). -/
def buildCells (pts : List CartesianPoint) (eps : ℚ) : ℤ × ℤ → List ℕ :=
  pts.enum.foldl
    (fun cells ip key =>
      if key = cellOf eps ip.2 then cells key ++ [ip.1] else cells key)
    fun _ => []

/-- `clustering._range_query`: all indices in the 3×3 cell neighbourhood of
`pts[idx]` whose squared distance to it is `≤ eps²`, grouped by cell in
`dx`-major, `dy`-minor order. -/
def rangeQuery (pts : List CartesianPoint) (cells : ℤ × ℤ → List ℕ) (eps : ℚ)
    (idx : ℕ) : List ℕ :=
  let p := pts.getD idx ⟨0, 0⟩
  let cx := ⌊p.x / eps⌋
  let cy := ⌊p.y / eps⌋
  ([-1, 0, 1] : List ℤ).flatMap fun dx =>
    ([-1, 0, 1] : List ℤ).flatMap fun dy =>
      (cells (cx + dx, cy + dy)).filter fun j =>
        decide (distSq (pts.getD j ⟨0, 0⟩) p ≤ eps * eps)

/-- The inner `while j < len(seed_set)` loop of `clustering._grid_dbscan`.
The seed list is a FIFO worklist: the source pops from the front (index `j`)
and `extend`s at the back.  `fuel` bounds the number of pops; each pop either
drops a seed or labels a previously unlabelled point and enqueues at most
`n` new seeds, so `(n+1)²` fuel (see `dbscanFuel`) always suffices for an
initial seed list of length ≤ n. -/
def expand (pts : List CartesianPoint) (cells : ℤ × ℤ → List ℕ) (eps : ℚ) (m : ℕ) :
    ℕ → List ℤ → ℤ → List ℕ → List ℤ
  | 0, labels, _, _ => labels
  | fuel + 1, labels, cid, seeds =>
    match seeds with
    | [] => labels
    | q :: rest =>
      if labels.getD q (-1) = -2 then
        -- dead branch of the source: a `-2` ("noise") label is never produced
        expand pts cells eps m fuel (labels.set q cid) cid rest
      else if labels.getD q (-1) ≠ -1 then
        expand pts cells eps m fuel labels cid rest
      else
        let labels' := labels.set q cid
        let qn := rangeQuery pts cells eps q
        expand pts cells eps m fuel labels' cid (if m ≤ qn.length then rest ++ qn else rest)

/-- Fuel bound for `expand`; see its doc comment. -/
def dbscanFuel (n : ℕ) : ℕ := (n + 1) * (n + 1)

/-- Body of the outer `for i in range(n)` loop of `clustering._grid_dbscan`;
the state is `(labels, cluster_id)`. -/
def dbscanStep (pts : List CartesianPoint) (cells : ℤ × ℤ → List ℕ) (eps : ℚ)
    (m : ℕ) (fuel : ℕ) (st : List ℤ × ℤ) (i : ℕ) : List ℤ × ℤ :=
  if st.1.getD i (-1) ≠ -1 then st
  else
    let ns := rangeQuery pts cells eps i
    if ns.length < m then st
    else (expand pts cells eps m fuel (st.1.set i st.2) st.2 ns, st.2 + 1)

/-- `clustering._grid_dbscan`: labels per point, `-1` = noise. -/
def gridDbscan (pts : List CartesianPoint) (eps : ℚ) (m : ℕ) : List ℤ :=
  ((List.range pts.length).foldl
      (dbscanStep pts (buildCells pts eps) eps m (dbscanFuel pts.length))
      (List.replicate pts.length (-1), 0)).1

/-- `clustering.cluster_points`.  `labels.max()` over the full label array is
`foldl max (-1)` since every entry is ≥ -1.  The source's
`bounding_radius > max_cluster_radius_mm` test on the square root is
`sqrtGtQ` on the squared radius. -/
def cluster_points (points : List CartesianPoint) (eps_mm : ℚ) (min_samples : ℕ)
    (max_cluster_radius_mm : ℚ) : List Cluster :=
  if points.length < min_samples then []
  else
    let labels := gridDbscan points eps_mm min_samples
    let maxLabel := labels.foldl max (-1)
    (List.range (maxLabel + 1).toNat).filterMap fun (l : ℕ) =>
      let members := (labels.zip points).filterMap fun lp =>
        if lp.1 = (l : ℤ) then some lp.2 else none
      let k := (members.length : ℚ)
      let centroid : CartesianPoint :=
        ⟨(members.map CartesianPoint.x).sum / k, (members.map CartesianPoint.y).sum / k⟩
      let brSq := (members.map fun p => distSq p centroid).foldl max 0
      if sqrtGtQ brSq max_cluster_radius_mm then none
      else some ⟨centroid, members, brSq⟩

/-- `tracker._Track`: internal track state. -/
structure Track where
  track_id : ℕ
  centroid : CartesianPoint
  velocity : CartesianPoint
  boundingRadiusSq : ℚ
  points : List CartesianPoint
  age : ℕ
  missing_frames : ℕ
  confirmed : Bool
deriving DecidableEq, Repr

/-- Default values used with `List.getD`; all accesses are in bounds, so the
defaults are never read. -/
def defaultPoint : CartesianPoint := ⟨0, 0⟩

/-- Default `Cluster` for `List.getD` (never read; see `defaultPoint`). -/
def defaultCluster : Cluster := ⟨defaultPoint, [], 0⟩

/-- Default `Track` for `List.getD` (never read; see `defaultPoint`). -/
def defaultTrack : Track := ⟨0, defaultPoint, defaultPoint, 0, [], 0, 0, false⟩

/-- In-place update of the element at one list index (Python
`tracks[i] = f(tracks[i])`-style mutation). -/
def modifyIdx (l : List α) (i : ℕ) (f : α → α) : List α :=
  match l, i with
  | [], _ => []
  | a :: t, 0 => f a :: t
  | a :: t, i + 1 => a :: modifyIdx t i f

/-- `tracker.ObjectTracker`: configuration plus mutable state. -/
structure ObjectTracker where
  maxMatchDist : ℚ
  maxMissing : ℕ
  minConfirm : ℕ
  nextId : ℕ
  tracks : List Track

/-- `ObjectTracker.__init__`: empty track list, `next_id = 1`. -/
def ObjectTracker.init (max_match_distance_mm : ℚ) (max_missing_frames : ℕ)
    (min_confirm_frames : ℕ) : ObjectTracker :=
  ⟨max_match_distance_mm, max_missing_frames, min_confirm_frames, 1, []⟩

/-- The finite entries of the cost matrix of `ObjectTracker._assign`,
collected as `(cost, t, c)` triples in `t`-major, `c`-minor order.  `cost`
is the squared predicted-to-centroid distance; the gate `d <= max_match_dist`
on the Euclidean distance is `sqrtLeQ` on the square. -/
def gatedPairs (maxDist : ℚ) (predicted : List CartesianPoint)
    (clusters : List Cluster) : List (ℚ × ℕ × ℕ) :=
  (List.range predicted.length).flatMap fun t =>
    (List.range clusters.length).filterMap fun c =>
      let d2 := distSq (predicted.getD t defaultPoint)
        ((clusters.getD c defaultCluster).centroid)
      if sqrtLeQ d2 maxDist then some (d2, t, c) else none

/-- Lexicographic comparison of `(cost, t, c)` triples: the order Python's
`list.sort()` uses on the tuples of `ObjectTracker._assign`.  Sorting by
squared cost orders triples exactly as sorting by cost, since `sqrt` is
strictly monotone on nonnegative rationals. -/
def lexLe (a b : ℚ × ℕ × ℕ) : Bool :=
  decide (a.1 < b.1) ||
    (decide (a.1 = b.1) &&
      (decide (a.2.1 < b.2.1) ||
        (decide (a.2.1 = b.2.1) && decide (a.2.2 ≤ b.2.2))))

/-- Stable insertion of an element into a `lexLe`-sorted list. -/
def insertLe (a : ℚ × ℕ × ℕ) : List (ℚ × ℕ × ℕ) → List (ℚ × ℕ × ℕ)
  | [] => [a]
  | b :: t => if lexLe a b then a :: b :: t else b :: insertLe a t

/-- `pairs.sort()`: insertion sort by `lexLe`.  The triples of `gatedPairs`
have pairwise distinct `(t, c)` components, so every comparison sort agrees
with Python's sort here. -/
def sortPairs : List (ℚ × ℕ × ℕ) → List (ℚ × ℕ × ℕ)
  | [] => []
  | a :: t => insertLe a (sortPairs t)

/-- The greedy acceptance walk of `ObjectTracker._assign`: accept a pair iff
neither its track nor its cluster is already used. -/
def greedyWalk : List (ℚ × ℕ × ℕ) → List ℕ → List ℕ → List (ℕ × ℕ)
  | [], _, _ => []
  | p :: rest, usedT, usedC =>
    if p.2.1 ∈ usedT ∨ p.2.2 ∈ usedC then greedyWalk rest usedT usedC
    else (p.2.1, p.2.2) :: greedyWalk rest (p.2.1 :: usedT) (p.2.2 :: usedC)

/-- `ObjectTracker._assign`: returns `(matches, unmatched_tracks,
unmatched_clusters)`.  The final `used_tracks` / `used_clusters` sets hold
exactly the first / second components of `matches`. -/
def ObjectTracker.assign (maxDist : ℚ) (predicted : List CartesianPoint)
    (clusters : List Cluster) : List (ℕ × ℕ) × List ℕ × List ℕ :=
  let numTracks := predicted.length
  let numClusters := clusters.length
  if numTracks = 0 then ([], [], List.range numClusters)
  else if numClusters = 0 then ([], List.range numTracks, [])
  else
    let ms := greedyWalk (sortPairs (gatedPairs maxDist predicted clusters)) [] []
    (ms,
     (List.range numTracks).filter fun t => decide (¬ t ∈ ms.map Prod.fst),
     (List.range numClusters).filter fun c => decide (¬ c ∈ ms.map Prod.snd))

/-- The per-track effect of a match in `ObjectTracker.update`: velocity from
the pre-update centroid, state copied from the cluster, age bump, visible,
confirmation once `age >= min_confirm`. -/
def matchedTrack (clusters : List Cluster) (minConfirm : ℕ) (ci : ℕ) (t : Track) :
    Track :=
  let c := clusters.getD ci defaultCluster
  { t with
    velocity := ⟨c.centroid.x - t.centroid.x, c.centroid.y - t.centroid.y⟩
    centroid := c.centroid
    boundingRadiusSq := c.boundingRadiusSq
    points := c.points
    age := t.age + 1
    missing_frames := 0
    confirmed := if minConfirm ≤ t.age + 1 then true else t.confirmed }

/-- The per-track effect of going unmatched in `ObjectTracker.update`. -/
def agedTrack (t : Track) : Track :=
  { t with missing_frames := t.missing_frames + 1, age := t.age + 1 }

/-- The "Update matched tracks" mutation of `ObjectTracker.update` for one
`(track_idx, cluster_idx)` pair. -/
def matchApply (clusters : List Cluster) (minConfirm : ℕ) (tracks : List Track)
    (tc : ℕ × ℕ) : List Track :=
  modifyIdx tracks tc.1 (matchedTrack clusters minConfirm tc.2)

/-- The "Update matched tracks" loop of `ObjectTracker.update`. -/
def applyMatches (clusters : List Cluster) (minConfirm : ℕ) (tracks : List Track)
    (ms : List (ℕ × ℕ)) : List Track :=
  ms.foldl (matchApply clusters minConfirm) tracks

/-- The "Increment missing counter for unmatched tracks" loop of
`ObjectTracker.update`. -/
def ageUnmatched (tracks : List Track) (unmatched : List ℕ) : List Track :=
  unmatched.foldl (fun ts i => modifyIdx ts i agedTrack) tracks

/-- The "Create new tracks for unmatched clusters" loop of
`ObjectTracker.update`: returns the spawned tracks and the new `next_id`. -/
def spawnTracks (nextId : ℕ) (minConfirm : ℕ) (clusters : List Cluster)
    (unmatchedClusters : List ℕ) : List Track × ℕ :=
  unmatchedClusters.foldl
    (fun st ci =>
      let c := clusters.getD ci defaultCluster
      (st.1 ++
        [{ track_id := st.2
           centroid := c.centroid
           velocity := ⟨0, 0⟩
           boundingRadiusSq := c.boundingRadiusSq
           points := c.points
           age := 1
           missing_frames := 0
           confirmed := decide (minConfirm ≤ 1) }],
       st.2 + 1))
    ([], nextId)

/-- Projection of a `_Track` to the published `TrackedObject`. -/
def Track.toTrackedObject (t : Track) : TrackedObject :=
  ⟨t.track_id, t.centroid, t.velocity, t.boundingRadiusSq, t.age, t.points⟩

/-- The "Predict positions using velocity" step of `ObjectTracker.update`. -/
def ObjectTracker.predicted (s : ObjectTracker) : List CartesianPoint :=
  s.tracks.map fun t =>
    (⟨t.centroid.x + t.velocity.x, t.centroid.y + t.velocity.y⟩ : CartesianPoint)

/-- `ObjectTracker.update`: returns the new tracker state and the list of
confirmed, visible tracked objects. -/
def ObjectTracker.update (s : ObjectTracker) (clusters : List Cluster) :
    ObjectTracker × List TrackedObject :=
  let asg := ObjectTracker.assign s.maxMatchDist s.predicted clusters
  let tracks1 := applyMatches clusters s.minConfirm s.tracks asg.1
  let tracks2 := ageUnmatched tracks1 asg.2.1
  let sp := spawnTracks s.nextId s.minConfirm clusters asg.2.2
  let tracks3 := (tracks2 ++ sp.1).filter fun t => decide (t.missing_frames ≤ s.maxMissing)
  ({ s with nextId := sp.2, tracks := tracks3 },
   (tracks3.filter fun t => t.confirmed && decide (t.missing_frames = 0)).map
     Track.toTrackedObject)

/-- Fold a sequence of cluster lists through `ObjectTracker.update`. -/
def ObjectTracker.runUpdates (s : ObjectTracker) (css : List (List Cluster)) :
    ObjectTracker :=
  css.foldl (fun st cs => (st.update cs).1) s

/-- The `object_id`s emitted over a sequence of updates, in emission order. -/
def ObjectTracker.runEmitted (s : ObjectTracker) (css : List (List Cluster)) :
    List ℕ :=
  (css.foldl
    (fun (acc : ObjectTracker × List ℕ) cs =>
      let r := acc.1.update cs
      (r.1, acc.2 ++ r.2.map TrackedObject.object_id))
    (s, [])).2

/-- The `track_id`s of the tracks spawned by one `update` call. -/
def ObjectTracker.createdIds (s : ObjectTracker) (clusters : List Cluster) : List ℕ :=
  let asg := ObjectTracker.assign s.maxMatchDist s.predicted clusters
  ((spawnTracks s.nextId s.minConfirm clusters asg.2.2).1).map Track.track_id

/-- The `track_id`s of all tracks created over a sequence of updates, in
creation order. -/
def ObjectTracker.runCreated (s : ObjectTracker) (css : List (List Cluster)) :
    List ℕ :=
  (css.foldl
    (fun (acc : ObjectTracker × List ℕ) cs =>
      (acc.1.update cs |>.1, acc.2 ++ acc.1.createdIds cs))
    (s, [])).2

/-- `trajectory.TrajectoryStore`: the `dict[int, deque]` is a total function
defaulting to the empty history (an id is "unknown" while its history is
empty, which is also what `get` returns for unknown ids). -/
structure TrajectoryStore where
  maxLength : ℕ
  trajectories : ℕ → List TrajectoryPoint

/-- `TrajectoryStore.__init__`. -/
def TrajectoryStore.init (max_trajectory_length : ℕ) : TrajectoryStore :=
  ⟨max_trajectory_length, fun _ => []⟩

/-- `TrajectoryStore.record`: append to the id's history; a deque with
`maxlen = B > 0` drops from the front whatever exceeds `B`. -/
def TrajectoryStore.record (s : TrajectoryStore) (object_id : ℕ) (x y : ℚ)
    (frame_number : ℕ) (timestamp : Option ℚ) : TrajectoryStore :=
  let h := s.trajectories object_id ++ [⟨x, y, frame_number, timestamp⟩]
  let h' := if 0 < s.maxLength ∧ s.maxLength < h.length
    then h.drop (h.length - s.maxLength) else h
  { s with trajectories := fun j => if j = object_id then h' else s.trajectories j }

/-- `TrajectoryStore.get` (snapshots are copies; lists are immutable here). -/
def TrajectoryStore.get (s : TrajectoryStore) (object_id : ℕ) : List TrajectoryPoint :=
  s.trajectories object_id

/-- One argument tuple of a `TrajectoryStore.record` call. -/
structure RecordCall where
  object_id : ℕ
  x : ℚ
  y : ℚ
  frame_number : ℕ
  timestamp : Option ℚ

/-- Fold a sequence of `record` calls through a store. -/
def TrajectoryStore.recordAll (s : TrajectoryStore) (calls : List RecordCall) :
    TrajectoryStore :=
  calls.foldl
    (fun st c => st.record c.object_id c.x c.y c.frame_number c.timestamp) s

/-- `_math.polar_to_cartesian`, with the transcendental
`(cos ∘ radians, sin ∘ radians)` abstracted as `trig`. -/
def polarToCartesian (trig : ℚ → ℚ × ℚ) (p : PolarPoint) : CartesianPoint :=
  ⟨p.distance_mm * (trig p.angle_deg).1, p.distance_mm * (trig p.angle_deg).2⟩

/-- `engine.TrackingEngine`: owns the pipeline stages and `frame_count`. -/
structure TrackingEngine where
  background : BackgroundModel
  clusterEps : ℚ
  clusterMinSamples : ℕ
  maxClusterRadius : ℚ
  tracker : ObjectTracker
  trajectories : TrajectoryStore
  frameCount : ℕ

/-- `TrackingEngine.__init__`. -/
def TrackingEngine.init (background_learning_rate : ℚ) (foreground_threshold_mm : ℚ)
    (min_learning_frames : ℕ) (angle_bins : ℕ) (cluster_eps_mm : ℚ)
    (cluster_min_samples : ℕ) (max_cluster_radius_mm : ℚ)
    (max_match_distance_mm : ℚ) (max_missing_frames : ℕ) (min_confirm_frames : ℕ)
    (max_trajectory_length : ℕ) : TrackingEngine :=
  { background := BackgroundModel.init angle_bins background_learning_rate
      foreground_threshold_mm min_learning_frames
    clusterEps := cluster_eps_mm
    clusterMinSamples := cluster_min_samples
    maxClusterRadius := max_cluster_radius_mm
    tracker := ObjectTracker.init max_match_distance_mm max_missing_frames
      min_confirm_frames
    trajectories := TrajectoryStore.init max_trajectory_length
    frameCount := 0 }

/-- `TrackingEngine.process_scan`.  Input is already a list of `PolarPoint`
(the source also accepts `(angle, distance)` pairs, which it converts to the
same `PolarPoint`s before any other step). -/
def TrackingEngine.processScan (trig : ℚ → ℚ × ℚ) (e : TrackingEngine)
    (points : List PolarPoint) (timestamp : Option ℚ) :
    TrackingFrame × TrackingEngine :=
  let polar := points.filter fun p => decide (0 < p.distance_mm)
  let bg := e.background.update polar
  let fg := bg.classify polar
  let cart := fg.map (polarToCartesian trig)
  let cls := cluster_points cart e.clusterEps e.clusterMinSamples e.maxClusterRadius
  let tu := e.tracker.update cls
  let traj := tu.2.foldl
    (fun st o => st.record o.object_id o.centroid.x o.centroid.y e.frameCount timestamp)
    e.trajectories
  (⟨e.frameCount, tu.2, timestamp⟩,
   { e with background := bg, tracker := tu.1, trajectories := traj,
            frameCount := e.frameCount + 1 })

/-- `TrackingEngine.reset`: clear background, fresh tracker and store with
the same configuration, `frame_count = 0`. -/
def TrackingEngine.reset (e : TrackingEngine) : TrackingEngine :=
  { e with
    background := e.background.reset
    tracker := ObjectTracker.init e.tracker.maxMatchDist e.tracker.maxMissing
      e.tracker.minConfirm
    trajectories := TrajectoryStore.init e.trajectories.maxLength
    frameCount := 0 }

/-- Feed a sequence of scans through `processScan`, collecting the returned
frames in order. -/
def TrackingEngine.runScans (trig : ℚ → ℚ × ℚ) (e : TrackingEngine)
    (scans : List (List PolarPoint × Option ℚ)) :
    List TrackingFrame × TrackingEngine :=
  scans.foldl
    (fun acc sc =>
      let r := TrackingEngine.processScan trig acc.2 sc.1 sc.2
      (acc.1 ++ [r.1], r.2))
    ([], e)

/-- The greedy assignment procedure exactly as the specification words it
(claim C5): take all `(cost, t, k)` triples with `cost ≤ max_match_distance`,
sort them ascending lexicographically by `(cost, t, k)`, walk in order and
accept a pair iff neither its track nor its cluster is already matched;
unmatched tracks/clusters are the ones no accepted pair mentions.  Costs are
carried squared, which the lexicographic order and the gate preserve. -/
def specGreedyAssignment (maxDist : ℚ) (predicted : List CartesianPoint)
    (clusters : List Cluster) : List (ℕ × ℕ) × List ℕ × List ℕ :=
  let triples := (List.range predicted.length).flatMap fun t =>
    (List.range clusters.length).filterMap fun k =>
      let cost := distSq (predicted.getD t defaultPoint)
        ((clusters.getD k defaultCluster).centroid)
      if sqrtLeQ cost maxDist then some (cost, t, k) else none
  let ms := greedyWalk (sortPairs triples) [] []
  (ms,
   (List.range predicted.length).filter fun t => decide (¬ t ∈ ms.map Prod.fst),
   (List.range clusters.length).filter fun k => decide (¬ k ∈ ms.map Prod.snd))

/-- Concrete clustering input: six points, `eps = 1`, `min_samples = 4`.
Point 0 is core with neighbours {3,0,2,1}; points 1, 2 are border points of
its cluster; point 4 is core with neighbours {2,1,4,5}, but 1 and 2 already
belong to the first cluster, so the second cluster keeps only {4,5}. -/
def exPts : List CartesianPoint :=
  [⟨0, 0⟩, ⟨1, 0⟩, ⟨0, 1⟩, ⟨-1, 0⟩, ⟨1, 1⟩, ⟨3/2, 3/2⟩]

/-- Concrete static scan: two angles that fall in the same angular bin
(width 1/2 degree) with different ranges. -/
def exScan : List PolarPoint := [⟨0, 1000⟩, ⟨1/4, 5000⟩]

/-- Concrete tracker with one confirmed track at the origin (witness input). -/
def exTracker : ObjectTracker :=
  ⟨800, 10, 2, 2, [⟨1, ⟨0, 0⟩, ⟨0, 0⟩, 0, [], 1, 0, true⟩]⟩

/-- Concrete cluster at `(100, 0)` (witness input). -/
def exCluster : Cluster := ⟨⟨100, 0⟩, [⟨100, 0⟩], 0⟩

/-- Tracker state invariant: ids are positive and below `next_id`. -/
def trackerInv (s : ObjectTracker) : Prop :=
  1 ≤ s.nextId ∧ ∀ t ∈ s.tracks, 1 ≤ t.track_id ∧ t.track_id < s.nextId

/-- DBSCAN label-array invariant: every entry is `-1` (unvisited) or a
cluster id in `[0, cid)`.  In particular the dead `-2` branch of the source
is never taken. -/
def goodLabels (labels : List ℤ) (cid : ℤ) : Prop :=
  ∀ j, labels.getD j (-1) = -1 ∨
    (0 ≤ labels.getD j (-1) ∧ labels.getD j (-1) < cid)

/-- Relation between two background models that share the whole
configuration and update history except that `m1`'s foreground threshold is
the smaller one: counts and frame counters agree, and `m1`'s learned
background is pointwise at least `m2`'s (a larger threshold lets more close
samples into the EMA, which can only pull the background inward). -/
def bgRel (m1 m2 : BackgroundModel) : Prop :=
  m1.numBins = m2.numBins ∧
  m1.learningRate = m2.learningRate ∧
  0 ≤ m1.learningRate ∧ m1.learningRate ≤ 1 ∧
  0 ≤ m1.threshold ∧ m1.threshold ≤ m2.threshold ∧
  m1.minFrames = m2.minFrames ∧
  m1.frameCount = m2.frameCount ∧
  (∀ b, m1.binCounts b = m2.binCounts b) ∧
  ∀ b, (m1.background b = none ↔ m2.background b = none) ∧
    ∀ v1 v2, m1.background b = some v1 → m2.background b = some v2 → v2 ≤ v1

/-! ### Auxiliary list lemmas -/

theorem getD_set_self {α : Type _} (l : List α) (i : ℕ) (a d : α)
    (h : i < l.length) : (l.set i a).getD i d = a := by
  simp [List.getD_eq_getElem?_getD, List.getElem?_set_self, h]

theorem getD_set_ne {α : Type _} (l : List α) (i j : ℕ) (a d : α)
    (h : i ≠ j) : (l.set i a).getD j d = l.getD j d := by
  simp [List.getD_eq_getElem?_getD, List.getElem?_set_ne h]

theorem length_set' {α : Type _} (l : List α) (i : ℕ) (a : α) :
    (l.set i a).length = l.length := List.length_set l i a

theorem modifyIdx_length {α : Type _} (l : List α) (i : ℕ) (f : α → α) :
    (modifyIdx l i f).length = l.length := by
  induction l generalizing i with
  | nil => rfl
  | cons a t ih =>
    cases i with
    | zero => rfl
    | succ i => simpa [modifyIdx] using ih i

theorem getD_modifyIdx_self {α : Type _} (l : List α) (i : ℕ) (f : α → α) (d : α)
    (h : i < l.length) : (modifyIdx l i f).getD i d = f (l.getD i d) := by
  induction l generalizing i with
  | nil => simp at h
  | cons a t ih =>
    cases i with
    | zero => rfl
    | succ i => simpa [modifyIdx, List.getD_cons_succ] using ih i (by simpa using h)

theorem getD_modifyIdx_ne {α : Type _} (l : List α) (i j : ℕ) (f : α → α) (d : α)
    (h : i ≠ j) : (modifyIdx l i f).getD j d = l.getD j d := by
  induction l generalizing i j with
  | nil => rfl
  | cons a t ih =>
    cases i with
    | zero =>
      cases j with
      | zero => exact absurd rfl h
      | succ j => rfl
    | succ i =>
      cases j with
      | zero => rfl
      | succ j =>
        simpa [modifyIdx, List.getD_cons_succ] using ih i j (by omega)

theorem foldl_max_lt (l : List ℤ) (c : ℤ) : ∀ a : ℤ, a < c → (∀ x ∈ l, x < c) →
    l.foldl max a < c := by
  induction l with
  | nil => intro a ha _; simpa using ha
  | cons x t ih =>
    intro a ha h
    have hx : x < c := h x (List.mem_cons_self x t)
    exact ih (max a x) (max_lt ha hx) fun y hy => h y (List.mem_cons_of_mem x hy)

theorem zip_getD_mem {α β : Type _} (l1 : List α) (l2 : List β) (j : ℕ)
    (d1 : α) (d2 : β) (h1 : j < l1.length) (h2 : j < l2.length) :
    (l1.getD j d1, l2.getD j d2) ∈ l1.zip l2 := by
  induction j generalizing l1 l2 with
  | zero =>
    cases l1 with
    | nil => simp at h1
    | cons a t1 =>
      cases l2 with
      | nil => simp at h2
      | cons b t2 => simp [List.zip_cons_cons]
  | succ j ih =>
    cases l1 with
    | nil => simp at h1
    | cons a t1 =>
      cases l2 with
      | nil => simp at h2
      | cons b t2 =>
        simpa [List.zip_cons_cons, List.getD_cons_succ] using
          Or.inr (ih t1 t2 (by simpa using h1) (by simpa using h2))

theorem getD_mem {α : Type _} (l : List α) (i : ℕ) (d : α) (h : i < l.length) :
    l.getD i d ∈ l := by
  rw [List.getD_eq_getElem l d h]
  exact List.getElem_mem h

/-! ### Claim C10: the angular bin index is always in range -/

/-- C10: for every rational `angle_deg` (also outside `[0, 360)`) and every
model with `angle_bins ≥ 1`, `_angle_to_bin` returns an index `< angle_bins`,
so `update` and `classify` never index the background arrays out of range. -/
theorem angleToBin_lt (m : BackgroundModel) (h : 1 ≤ m.numBins) (angle_deg : ℚ) :
    m.angleToBin angle_deg < m.numBins := by
  unfold BackgroundModel.angleToBin
  have hb : (0 : ℤ) < (m.numBins : ℤ) := by exact_mod_cast h
  have h1 : 0 ≤ (truncQ (angle_deg / ((360 : ℚ) / (m.numBins : ℚ)))).emod (m.numBins : ℤ) :=
    Int.emod_nonneg _ (by omega)
  have h2 : (truncQ (angle_deg / ((360 : ℚ) / (m.numBins : ℚ)))).emod (m.numBins : ℤ) <
      (m.numBins : ℤ) := Int.emod_lt_of_pos _ hb
  omega

/-- Witness for `angleToBin_lt` at a concrete model and a negative angle. -/
theorem angleToBin_lt_witness :
    1 ≤ (BackgroundModel.init 720 (1/50) 150 30).numBins ∧
    (BackgroundModel.init 720 (1/50) 150 30).angleToBin (-500) <
      (BackgroundModel.init 720 (1/50) 150 30).numBins :=
  ⟨by decide, angleToBin_lt (BackgroundModel.init 720 (1/50) 150 30) (by decide) (-500)⟩

/-! ### Claim C8: bounded trajectories -/

theorem record_maxLength (s : TrajectoryStore) (id : ℕ) (x y : ℚ) (f : ℕ)
    (ts : Option ℚ) : (s.record id x y f ts).maxLength = s.maxLength := rfl

theorem record_length_le (s : TrajectoryStore) (id : ℕ) (x y : ℚ) (f : ℕ)
    (ts : Option ℚ) (hlen : ∀ j, (s.trajectories j).length ≤ s.maxLength)
    (hB : 1 ≤ s.maxLength) :
    ∀ j, ((s.record id x y f ts).trajectories j).length ≤ s.maxLength := by
  intro j
  by_cases hj : j = id
  · subst hj
    simp only [TrajectoryStore.record, if_pos rfl, if_true]
    by_cases hcond : 0 < s.maxLength ∧
        s.maxLength < (s.trajectories j ++
          [(⟨x, y, f, ts⟩ : TrajectoryPoint)]).length
    · rw [if_pos hcond, List.length_drop]
      omega
    · rw [if_neg hcond]
      have h1 := hlen j
      simp only [List.length_append, List.length_cons, List.length_nil] at hcond ⊢
      omega
  · simp only [TrajectoryStore.record, if_neg hj]
    exact hlen j

theorem recordAll_length_le (calls : List RecordCall) (s : TrajectoryStore)
    (hB : 1 ≤ s.maxLength) (hlen : ∀ j, (s.trajectories j).length ≤ s.maxLength) :
    ∀ j, ((s.recordAll calls).trajectories j).length ≤ s.maxLength := by
  induction calls generalizing s with
  | nil => exact hlen
  | cons c rest ih =>
    intro j
    have h1 := ih (s.record c.object_id c.x c.y c.frame_number c.timestamp)
      hB (record_length_le s _ _ _ _ _ hlen hB) j
    exact h1

theorem recordAll_unbounded (calls : List RecordCall) (s : TrajectoryStore)
    (h0 : s.maxLength = 0) (i : ℕ) :
    (s.recordAll calls).trajectories i = s.trajectories i ++
      (calls.filterMap fun c => if c.object_id = i then
        some ⟨c.x, c.y, c.frame_number, c.timestamp⟩ else none) := by
  induction calls generalizing s with
  | nil => simp [TrajectoryStore.recordAll]
  | cons c rest ih =>
    have hrec : (s.record c.object_id c.x c.y c.frame_number c.timestamp).maxLength = 0 :=
      h0
    have step := ih (s.record c.object_id c.x c.y c.frame_number c.timestamp) hrec
    show ((s.record c.object_id c.x c.y c.frame_number c.timestamp).recordAll
      rest).trajectories i = _
    rw [step]
    simp only [TrajectoryStore.record, h0, List.filterMap_cons, Nat.lt_irrefl,
      false_and, if_false]
    by_cases hc : c.object_id = i
    · subst hc
      simp [List.append_assoc]
    · rw [if_neg (fun h => hc h.symm), if_neg hc]

/-- C8: a `TrajectoryStore` with bound `B ≥ 1` holds at most `B` points per
object id under any sequence of `record` calls; a `record` call on a full
history drops the oldest point; with `B = 0` every recorded point of an id is
retained, in order. -/
theorem trajectory_store_bound (B : ℕ) (calls : List RecordCall) (i : ℕ)
    (s : TrajectoryStore) (c : RecordCall) (hB : 1 ≤ B)
    (hfull : (s.trajectories c.object_id).length = s.maxLength)
    (hs : 1 ≤ s.maxLength) :
    ((((TrajectoryStore.init B).recordAll calls).trajectories i).length ≤ B) ∧
    ((s.record c.object_id c.x c.y c.frame_number c.timestamp).trajectories
        c.object_id =
      (s.trajectories c.object_id).drop 1 ++
        [⟨c.x, c.y, c.frame_number, c.timestamp⟩]) ∧
    (((TrajectoryStore.init 0).recordAll calls).trajectories i =
      calls.filterMap fun c' => if c'.object_id = i then
        some ⟨c'.x, c'.y, c'.frame_number, c'.timestamp⟩ else none) := by
  refine ⟨recordAll_length_le calls (TrajectoryStore.init B) hB (fun _ => by
    simp [TrajectoryStore.init]) i, ?_, by
    simpa [TrajectoryStore.init] using
      recordAll_unbounded calls (TrajectoryStore.init 0) rfl i⟩
  simp only [TrajectoryStore.record, if_pos rfl, if_true]
  have hlen : (s.trajectories c.object_id ++
      [(⟨c.x, c.y, c.frame_number, c.timestamp⟩ : TrajectoryPoint)]).length =
      s.maxLength + 1 := by simp [hfull]
  rw [hlen]
  have hc : 0 < s.maxLength ∧ s.maxLength < s.maxLength + 1 := ⟨hs, by omega⟩
  rw [if_pos hc]
  have hdrop : s.maxLength + 1 - s.maxLength = 1 := by omega
  rw [hdrop, List.drop_append_of_le_length (by omega)]

/-- Witness for `trajectory_store_bound`: bound 2, three records for id 7,
and a full two-point history receiving one more record. -/
theorem trajectory_store_bound_witness :
    ((1 : ℕ) ≤ 2 ∧
      (((⟨2, fun j => if j = 7 then [⟨0, 0, 0, none⟩, ⟨1, 0, 1, none⟩] else []⟩ :
          TrajectoryStore).trajectories
        (⟨7, 2, 0, 2, none⟩ : RecordCall).object_id).length =
        (⟨2, fun j => if j = 7 then [⟨0, 0, 0, none⟩, ⟨1, 0, 1, none⟩] else []⟩ :
          TrajectoryStore).maxLength) ∧
      (1 : ℕ) ≤ (⟨2, fun j => if j = 7 then [⟨0, 0, 0, none⟩, ⟨1, 0, 1, none⟩]
        else []⟩ : TrajectoryStore).maxLength) ∧
    (((((TrajectoryStore.init 2).recordAll
        [⟨7, 0, 0, 0, none⟩, ⟨7, 1, 0, 1, none⟩, ⟨7, 2, 0, 2, none⟩]).trajectories
        7).length ≤ 2) ∧
      (((⟨2, fun j => if j = 7 then [⟨0, 0, 0, none⟩, ⟨1, 0, 1, none⟩] else []⟩ :
          TrajectoryStore).record 7 2 0 2 none).trajectories 7 =
        ((⟨2, fun j => if j = 7 then [⟨0, 0, 0, none⟩, ⟨1, 0, 1, none⟩] else []⟩ :
          TrajectoryStore).trajectories 7).drop 1 ++ [⟨2, 0, 2, none⟩]) ∧
      (((TrajectoryStore.init 0).recordAll
          [⟨7, 0, 0, 0, none⟩, ⟨7, 1, 0, 1, none⟩, ⟨7, 2, 0, 2, none⟩]).trajectories
          7 =
        ([⟨7, 0, 0, 0, none⟩, ⟨7, 1, 0, 1, none⟩,
          ⟨7, 2, 0, 2, none⟩] : List RecordCall).filterMap fun c' =>
          if c'.object_id = 7 then
            some ⟨c'.x, c'.y, c'.frame_number, c'.timestamp⟩ else none)) :=
  ⟨⟨by decide, by decide, by decide⟩,
    trajectory_store_bound 2
      [⟨7, 0, 0, 0, none⟩, ⟨7, 1, 0, 1, none⟩, ⟨7, 2, 0, 2, none⟩] 7
      ⟨2, fun j => if j = 7 then [⟨0, 0, 0, none⟩, ⟨1, 0, 1, none⟩] else []⟩
      ⟨7, 2, 0, 2, none⟩ (by decide) (by decide) (by decide)⟩

/-! ### Claim C9: frame counting -/

theorem runScans_frames (trig : ℚ → ℚ × ℚ)
    (scans : List (List PolarPoint × Option ℚ)) :
    ∀ (e : TrackingEngine) (acc : List TrackingFrame),
    ((scans.foldl
        (fun acc sc =>
          let r := TrackingEngine.processScan trig acc.2 sc.1 sc.2
          (acc.1 ++ [r.1], r.2))
        (acc, e)).1).map TrackingFrame.frame_number =
      acc.map TrackingFrame.frame_number ++
        List.range' e.frameCount scans.length := by
  induction scans with
  | nil => intro e acc; simp
  | cons sc rest ih =>
    intro e acc
    simp only [List.foldl_cons]
    rw [ih]
    have h1 : (TrackingEngine.processScan trig e sc.1 sc.2).2.frameCount =
        e.frameCount + 1 := rfl
    have h2 : (TrackingEngine.processScan trig e sc.1 sc.2).1.frame_number =
        e.frameCount := rfl
    rw [h1]
    simp [h2, List.range'_succ]

/-- C9: `process_scan` increments `frame_count` by exactly 1 and returns a
frame numbered with the pre-call `frame_count`; a fresh or reset engine has
`frame_count = 0`, so successive calls since construction yield frame
numbers `0, 1, 2, …`. -/
theorem engine_frame_count (trig : ℚ → ℚ × ℚ) (e : TrackingEngine)
    (points : List PolarPoint) (ts : Option ℚ)
    (scans : List (List PolarPoint × Option ℚ)) (lr T : ℚ) (F bins : ℕ)
    (ceps : ℚ) (cmin : ℕ) (crad mmd : ℚ) (mmiss mconf mtraj : ℕ) :
    (TrackingEngine.processScan trig e points ts).2.frameCount =
      e.frameCount + 1 ∧
    (TrackingEngine.processScan trig e points ts).1.frame_number =
      e.frameCount ∧
    (TrackingEngine.init lr T F bins ceps cmin crad mmd mmiss mconf
      mtraj).frameCount = 0 ∧
    (TrackingEngine.reset e).frameCount = 0 ∧
    ((TrackingEngine.init lr T F bins ceps cmin crad mmd mmiss mconf
        mtraj).runScans trig scans).1.map TrackingFrame.frame_number =
      List.range scans.length := by
  refine ⟨rfl, rfl, rfl, rfl, ?_⟩
  rw [TrackingEngine.runScans, runScans_frames]
  simp [TrackingEngine.init, List.range_eq_range']

/-! ### Claim C5: the assignment is the specified greedy procedure -/

theorem flatMap_const_nil {α β : Type _} (l : List α) :
    (l.flatMap fun _ => ([] : List β)) = [] := by
  induction l <;> simp_all

/-- C5: for every list of predicted track positions and clusters,
`ObjectTracker._assign` returns exactly the result of the specified greedy
procedure: gate, sort ascending lexicographically by `(cost, t, k)`, walk in
order accepting a pair iff neither side is already matched. -/
theorem assign_eq_spec_greedy (maxDist : ℚ) (predicted : List CartesianPoint)
    (clusters : List Cluster) :
    ObjectTracker.assign maxDist predicted clusters =
      specGreedyAssignment maxDist predicted clusters := by
  unfold ObjectTracker.assign specGreedyAssignment gatedPairs
  by_cases hT : predicted.length = 0
  · rw [if_pos hT]
    simp [hT, sortPairs, greedyWalk]
  · rw [if_neg hT]
    by_cases hC : clusters.length = 0
    · rw [if_pos hC]
      simp only [hC, List.range_zero, List.filterMap_nil, flatMap_const_nil]
      simp [sortPairs, greedyWalk]
    · rw [if_neg hC]

/-! ### Lemmas on the greedy walk and the track-list folds -/

theorem mem_insertLe (a x : ℚ × ℕ × ℕ) : ∀ l, x ∈ insertLe a l ↔ x = a ∨ x ∈ l := by
  intro l
  induction l with
  | nil => simp [insertLe]
  | cons b t ih =>
    by_cases h : lexLe a b
    · simp [insertLe, h]
    · simp only [insertLe, if_neg h, List.mem_cons, ih]
      tauto

theorem mem_sortPairs (x : ℚ × ℕ × ℕ) : ∀ l, x ∈ sortPairs l ↔ x ∈ l := by
  intro l
  induction l with
  | nil => simp [sortPairs]
  | cons b t ih => simp [sortPairs, mem_insertLe, ih]

theorem greedyWalk_sub (t c : ℕ) :
    ∀ (pairs : List (ℚ × ℕ × ℕ)) (usedT usedC : List ℕ),
    (t, c) ∈ greedyWalk pairs usedT usedC → ∃ d, (d, t, c) ∈ pairs := by
  intro pairs
  induction pairs with
  | nil => intro _ _ h; simp [greedyWalk] at h
  | cons p rest ih =>
    intro usedT usedC h
    by_cases hp : p.2.1 ∈ usedT ∨ p.2.2 ∈ usedC
    · rw [greedyWalk, if_pos hp] at h
      obtain ⟨d, hd⟩ := ih usedT usedC h
      exact ⟨d, List.mem_cons_of_mem p hd⟩
    · rw [greedyWalk, if_neg hp] at h
      rcases List.mem_cons.mp h with heq | hmem
      · have ht : t = p.2.1 := congrArg Prod.fst heq
        have hc : c = p.2.2 := congrArg Prod.snd heq
        subst ht; subst hc
        exact ⟨p.1, List.mem_cons_self p rest⟩
      · obtain ⟨d, hd⟩ := ih _ _ hmem
        exact ⟨d, List.mem_cons_of_mem p hd⟩

theorem greedyWalk_fst_spec :
    ∀ (pairs : List (ℚ × ℕ × ℕ)) (usedT usedC : List ℕ),
    ((greedyWalk pairs usedT usedC).map Prod.fst).Nodup ∧
      ∀ t ∈ (greedyWalk pairs usedT usedC).map Prod.fst, t ∉ usedT := by
  intro pairs
  induction pairs with
  | nil => intro _ _; simp [greedyWalk]
  | cons p rest ih =>
    intro usedT usedC
    by_cases hp : p.2.1 ∈ usedT ∨ p.2.2 ∈ usedC
    · rw [greedyWalk, if_pos hp]
      exact ih usedT usedC
    · rw [greedyWalk, if_neg hp]
      have hT : p.2.1 ∉ usedT := fun h => hp (Or.inl h)
      obtain ⟨ihnd, ihnot⟩ := ih (p.2.1 :: usedT) (p.2.2 :: usedC)
      constructor
      · rw [List.map_cons, List.nodup_cons]
        exact ⟨fun h => (ihnot _ h) (List.mem_cons_self _ _), ihnd⟩
      · intro t ht
        rw [List.map_cons] at ht
        rcases List.mem_cons.mp ht with heq | hmem
        · subst heq; exact hT
        · exact fun hu => ihnot t hmem (List.mem_cons_of_mem _ hu)

theorem gatedPairs_mem_lt (maxDist : ℚ) (predicted : List CartesianPoint)
    (clusters : List Cluster) (d : ℚ) (t c : ℕ)
    (h : (d, t, c) ∈ gatedPairs maxDist predicted clusters) :
    t < predicted.length ∧ c < clusters.length := by
  unfold gatedPairs at h
  obtain ⟨t', ht', hmem⟩ := List.mem_flatMap.mp h
  obtain ⟨c', hc', heq⟩ := List.mem_filterMap.mp hmem
  by_cases hcond : sqrtLeQ
      (distSq (predicted.getD t' defaultPoint) ((clusters.getD c' defaultCluster).centroid))
      maxDist
  · rw [if_pos hcond] at heq
    have hinj := Option.some.inj heq
    have ht : t' = t := congrArg (fun z : ℚ × ℕ × ℕ => z.2.1) hinj
    have hc : c' = c := congrArg (fun z : ℚ × ℕ × ℕ => z.2.2) hinj
    subst ht; subst hc
    exact ⟨List.mem_range.mp ht', List.mem_range.mp hc'⟩
  · rw [if_neg hcond] at heq
    exact absurd heq (by simp)

theorem assign_fst_nodup (maxDist : ℚ) (predicted : List CartesianPoint)
    (clusters : List Cluster) :
    (((ObjectTracker.assign maxDist predicted clusters).1).map Prod.fst).Nodup := by
  unfold ObjectTracker.assign
  by_cases hT : predicted.length = 0
  · rw [if_pos hT]; simp
  · rw [if_neg hT]
    by_cases hC : clusters.length = 0
    · rw [if_pos hC]; simp
    · rw [if_neg hC]
      exact (greedyWalk_fst_spec _ [] []).1

theorem assign_mem_lt (maxDist : ℚ) (predicted : List CartesianPoint)
    (clusters : List Cluster) (t c : ℕ)
    (h : (t, c) ∈ (ObjectTracker.assign maxDist predicted clusters).1) :
    t < predicted.length ∧ c < clusters.length := by
  unfold ObjectTracker.assign at h
  by_cases hT : predicted.length = 0
  · rw [if_pos hT] at h; simp at h
  · rw [if_neg hT] at h
    by_cases hC : clusters.length = 0
    · rw [if_pos hC] at h; simp at h
    · rw [if_neg hC] at h
      obtain ⟨d, hd⟩ := greedyWalk_sub t c _ [] [] h
      exact gatedPairs_mem_lt maxDist predicted clusters d t c
        ((mem_sortPairs _ _).mp hd)

theorem assign_unmatchedT (maxDist : ℚ) (predicted : List CartesianPoint)
    (clusters : List Cluster) :
    (ObjectTracker.assign maxDist predicted clusters).2.1 =
      (List.range predicted.length).filter fun t =>
        decide (¬ t ∈ ((ObjectTracker.assign maxDist predicted clusters).1).map
          Prod.fst) := by
  unfold ObjectTracker.assign
  by_cases hT : predicted.length = 0
  · rw [if_pos hT]; simp [hT]
  · rw [if_neg hT]
    by_cases hC : clusters.length = 0
    · rw [if_pos hC]
      simp
    · rw [if_neg hC]

theorem applyMatches_length (clusters : List Cluster) (mc : ℕ)
    (ms : List (ℕ × ℕ)) : ∀ tracks : List Track,
    (applyMatches clusters mc tracks ms).length = tracks.length := by
  induction ms with
  | nil => intro tracks; rfl
  | cons m rest ih =>
    intro tracks
    show (applyMatches clusters mc (matchApply clusters mc tracks m) rest).length = _
    rw [ih, matchApply, modifyIdx_length]

theorem applyMatches_getD_not_mem (clusters : List Cluster) (mc : ℕ)
    (ms : List (ℕ × ℕ)) (ti : ℕ) (h : ti ∉ ms.map Prod.fst) :
    ∀ tracks : List Track,
    (applyMatches clusters mc tracks ms).getD ti defaultTrack =
      tracks.getD ti defaultTrack := by
  induction ms with
  | nil => intro tracks; rfl
  | cons m rest ih =>
    intro tracks
    rw [List.map_cons] at h
    have h1 : ti ≠ m.1 := fun he => h (he ▸ List.mem_cons_self _ _)
    have h2 : ti ∉ rest.map Prod.fst := fun he => h (List.mem_cons_of_mem _ he)
    show (applyMatches clusters mc (matchApply clusters mc tracks m) rest).getD
      ti defaultTrack = _
    rw [ih h2, matchApply, getD_modifyIdx_ne _ _ _ _ _ (fun he => h1 he.symm)]

theorem applyMatches_getD_matched (clusters : List Cluster) (mc : ℕ)
    (ms : List (ℕ × ℕ)) (ti ci : ℕ) (hnd : (ms.map Prod.fst).Nodup)
    (hmem : (ti, ci) ∈ ms) : ∀ tracks : List Track, ti < tracks.length →
    (applyMatches clusters mc tracks ms).getD ti defaultTrack =
      matchedTrack clusters mc ci (tracks.getD ti defaultTrack) := by
  induction ms with
  | nil => simp at hmem
  | cons m rest ih =>
    obtain ⟨m1, m2⟩ := m
    intro tracks hti
    rw [List.map_cons, List.nodup_cons] at hnd
    rcases List.mem_cons.mp hmem with heq | hrest
    · injection heq with h1 h2
      subst h1; subst h2
      show (applyMatches clusters mc (matchApply clusters mc tracks (ti, ci))
        rest).getD ti defaultTrack = _
      rw [applyMatches_getD_not_mem clusters mc rest ti hnd.1,
        matchApply, getD_modifyIdx_self _ _ _ _ hti]
    · have hti' : ti ∈ rest.map Prod.fst :=
        List.mem_map.mpr ⟨(ti, ci), hrest, rfl⟩
      have hne : m1 ≠ ti := fun he => hnd.1 (he ▸ hti')
      show (applyMatches clusters mc (matchApply clusters mc tracks (m1, m2))
        rest).getD ti defaultTrack = _
      rw [ih hnd.2 hrest (matchApply clusters mc tracks (m1, m2))
          (by rw [matchApply, modifyIdx_length]; exact hti),
        matchApply, getD_modifyIdx_ne _ _ _ _ _ hne]

theorem ageUnmatched_length (unmatched : List ℕ) : ∀ tracks : List Track,
    (ageUnmatched tracks unmatched).length = tracks.length := by
  induction unmatched with
  | nil => intro tracks; rfl
  | cons i rest ih =>
    intro tracks
    show (ageUnmatched (modifyIdx tracks i agedTrack) rest).length = _
    rw [ih, modifyIdx_length]

theorem ageUnmatched_getD_not_mem (unmatched : List ℕ) (ti : ℕ)
    (h : ti ∉ unmatched) : ∀ tracks : List Track,
    (ageUnmatched tracks unmatched).getD ti defaultTrack =
      tracks.getD ti defaultTrack := by
  induction unmatched with
  | nil => intro tracks; rfl
  | cons i rest ih =>
    intro tracks
    have h1 : i ≠ ti := fun he => h (he ▸ List.mem_cons_self _ _)
    have h2 : ti ∉ rest := fun he => h (List.mem_cons_of_mem _ he)
    show (ageUnmatched (modifyIdx tracks i agedTrack) rest).getD ti defaultTrack = _
    rw [ih h2, getD_modifyIdx_ne _ _ _ _ _ h1]

theorem ageUnmatched_getD_mem (unmatched : List ℕ) (ti : ℕ)
    (hnd : unmatched.Nodup) (hmem : ti ∈ unmatched) :
    ∀ tracks : List Track, ti < tracks.length →
    (ageUnmatched tracks unmatched).getD ti defaultTrack =
      agedTrack (tracks.getD ti defaultTrack) := by
  induction unmatched with
  | nil => simp at hmem
  | cons i rest ih =>
    intro tracks hti
    rw [List.nodup_cons] at hnd
    rcases List.mem_cons.mp hmem with heq | hrest
    · subst heq
      show (ageUnmatched (modifyIdx tracks ti agedTrack) rest).getD ti
        defaultTrack = _
      rw [ageUnmatched_getD_not_mem rest ti hnd.1,
        getD_modifyIdx_self _ _ _ _ hti]
    · have hne : i ≠ ti := fun he => hnd.1 (he ▸ hrest)
      show (ageUnmatched (modifyIdx tracks i agedTrack) rest).getD ti
        defaultTrack = _
      rw [ih hnd.2 hrest (modifyIdx tracks i agedTrack)
          (by rw [modifyIdx_length]; exact hti),
        getD_modifyIdx_ne _ _ _ _ _ hne]

theorem spawnTracks_missing_zero (minConfirm : ℕ) (clusters : List Cluster)
    (uc : List ℕ) : ∀ (acc : List Track) (nid : ℕ),
    (∀ t ∈ acc, t.missing_frames = 0) →
    ∀ t ∈ (uc.foldl
      (fun st ci =>
        let c := clusters.getD ci defaultCluster
        (st.1 ++
          [{ track_id := st.2, centroid := c.centroid, velocity := ⟨0, 0⟩,
             boundingRadiusSq := c.boundingRadiusSq, points := c.points,
             age := 1, missing_frames := 0,
             confirmed := decide (minConfirm ≤ 1) }],
         st.2 + 1))
      (acc, nid)).1, t.missing_frames = 0 := by
  induction uc with
  | nil => intro acc nid hacc; exact hacc
  | cons ci rest ih =>
    intro acc nid hacc
    refine ih _ _ ?_
    intro t ht
    rcases List.mem_append.mp ht with h1 | h1
    · exact hacc t h1
    · rcases List.mem_singleton.mp h1 with rfl
      rfl

/-! ### Claim C2: `missing_frames` vs. being matched -/

/-- C2 (amended): after `ObjectTracker.update`, a track that already existed
before the update has `missing_frames = 0` iff it was matched to a cluster
during that update (this also covers retired tracks, which are aged before
the retirement filter runs); the update's final track list is the aged
pre-existing tracks plus the spawned tracks, filtered by retirement; and
every track spawned during the update also starts with `missing_frames = 0`
without having been matched. -/
theorem tracker_missing_iff_matched (s : ObjectTracker) (clusters : List Cluster)
    (ti : ℕ) (hti : ti < s.tracks.length) :
    (((ageUnmatched
        (applyMatches clusters s.minConfirm s.tracks
          (ObjectTracker.assign s.maxMatchDist s.predicted clusters).1)
        (ObjectTracker.assign s.maxMatchDist s.predicted clusters).2.1).getD ti
          defaultTrack).missing_frames = 0 ↔
      ∃ ci, (ti, ci) ∈ (ObjectTracker.assign s.maxMatchDist s.predicted
        clusters).1) ∧
    (s.update clusters).1.tracks =
      (ageUnmatched
        (applyMatches clusters s.minConfirm s.tracks
          (ObjectTracker.assign s.maxMatchDist s.predicted clusters).1)
        (ObjectTracker.assign s.maxMatchDist s.predicted clusters).2.1 ++
       (spawnTracks s.nextId s.minConfirm clusters
          (ObjectTracker.assign s.maxMatchDist s.predicted clusters).2.2).1).filter
        (fun t => decide (t.missing_frames ≤ s.maxMissing)) ∧
    ∀ t ∈ (spawnTracks s.nextId s.minConfirm clusters
        (ObjectTracker.assign s.maxMatchDist s.predicted clusters).2.2).1,
      t.missing_frames = 0 := by
  have hlen : s.predicted.length = s.tracks.length := by
    rw [ObjectTracker.predicted, List.length_map]
  refine ⟨?_, rfl, ?_⟩
  · by_cases hmem : ti ∈ ((ObjectTracker.assign s.maxMatchDist s.predicted
        clusters).1).map Prod.fst
    · obtain ⟨⟨ti', ci⟩, hpair, hfst⟩ := List.mem_map.mp hmem
      cases hfst
      have hnotun : ti' ∉ (ObjectTracker.assign s.maxMatchDist s.predicted
          clusters).2.1 := by
        rw [assign_unmatchedT]
        intro hin
        have h2 := (List.mem_filter.mp hin).2
        simp only [decide_eq_true_eq] at h2
        exact h2 hmem
      rw [ageUnmatched_getD_not_mem _ _ hnotun,
        applyMatches_getD_matched clusters s.minConfirm _ ti' ci
          (assign_fst_nodup s.maxMatchDist s.predicted clusters) hpair s.tracks hti]
      exact iff_of_true rfl ⟨ci, hpair⟩
    · have hun : ti ∈ (ObjectTracker.assign s.maxMatchDist s.predicted
          clusters).2.1 := by
        rw [assign_unmatchedT]
        exact List.mem_filter.mpr
          ⟨List.mem_range.mpr (hlen ▸ hti), by simpa using hmem⟩
      have hnd : ((ObjectTracker.assign s.maxMatchDist s.predicted
          clusters).2.1).Nodup := by
        rw [assign_unmatchedT]
        exact (List.nodup_range _).filter _
      rw [ageUnmatched_getD_mem _ ti hnd hun _
          (by rw [applyMatches_length]; exact hti),
        applyMatches_getD_not_mem clusters s.minConfirm _ ti hmem]
      refine iff_of_false (by simp [agedTrack]) ?_
      rintro ⟨ci, hc⟩
      exact hmem (List.mem_map.mpr ⟨(ti, ci), hc, rfl⟩)
  · exact spawnTracks_missing_zero s.minConfirm clusters _ [] s.nextId
      (by simp)

/-- C2 counterexample: starting from a fresh tracker, one update with a
single cluster matches nothing (`matches = []`), yet the spawned track ends
the update with `missing_frames = 0` — so "`missing_frames` is 0 iff the
track was matched this update" fails for tracks spawned by the update. -/
theorem tracker_missing_iff_matched_counterexample :
    (ObjectTracker.assign (800 : ℚ)
        (ObjectTracker.init 800 10 2).predicted
        [⟨⟨5, 5⟩, [⟨5, 5⟩], 0⟩]).1 = [] ∧
    ((ObjectTracker.init 800 10 2).update [⟨⟨5, 5⟩, [⟨5, 5⟩], 0⟩]).1.tracks.length
      = 1 ∧
    ((((ObjectTracker.init 800 10 2).update
        [⟨⟨5, 5⟩, [⟨5, 5⟩], 0⟩]).1.tracks.getD 0 defaultTrack).missing_frames
      = 0) := by
  refine ⟨?_, ?_, ?_⟩ <;> rfl

/-- Witness for `tracker_missing_iff_matched`: one pre-existing track, one
cluster within the gate. -/
theorem tracker_missing_iff_matched_witness :
    0 < exTracker.tracks.length ∧
    (((ageUnmatched
        (applyMatches [exCluster] exTracker.minConfirm exTracker.tracks
          (ObjectTracker.assign exTracker.maxMatchDist exTracker.predicted
            [exCluster]).1)
        (ObjectTracker.assign exTracker.maxMatchDist exTracker.predicted
          [exCluster]).2.1).getD 0 defaultTrack).missing_frames = 0 ↔
      ∃ ci, (0, ci) ∈ (ObjectTracker.assign exTracker.maxMatchDist
        exTracker.predicted [exCluster]).1) :=
  ⟨by decide, (tracker_missing_iff_matched exTracker [exCluster] 0 (by decide)).1⟩

/-! ### Claim C6: velocity and centroid of a matched track -/

/-- C6: every track matched during `ObjectTracker.update` survives the
update, and afterwards its velocity is the cluster centroid minus its
pre-update centroid (componentwise), its centroid is the cluster centroid,
and its id is unchanged. -/
theorem tracker_matched_velocity (s : ObjectTracker) (clusters : List Cluster)
    (ti ci : ℕ)
    (h : (ti, ci) ∈ (ObjectTracker.assign s.maxMatchDist s.predicted clusters).1) :
    (ageUnmatched
        (applyMatches clusters s.minConfirm s.tracks
          (ObjectTracker.assign s.maxMatchDist s.predicted clusters).1)
        (ObjectTracker.assign s.maxMatchDist s.predicted clusters).2.1).getD ti
        defaultTrack ∈ (s.update clusters).1.tracks ∧
    ((ageUnmatched
        (applyMatches clusters s.minConfirm s.tracks
          (ObjectTracker.assign s.maxMatchDist s.predicted clusters).1)
        (ObjectTracker.assign s.maxMatchDist s.predicted clusters).2.1).getD ti
        defaultTrack).velocity =
      ⟨(clusters.getD ci defaultCluster).centroid.x -
          (s.tracks.getD ti defaultTrack).centroid.x,
        (clusters.getD ci defaultCluster).centroid.y -
          (s.tracks.getD ti defaultTrack).centroid.y⟩ ∧
    ((ageUnmatched
        (applyMatches clusters s.minConfirm s.tracks
          (ObjectTracker.assign s.maxMatchDist s.predicted clusters).1)
        (ObjectTracker.assign s.maxMatchDist s.predicted clusters).2.1).getD ti
        defaultTrack).centroid = (clusters.getD ci defaultCluster).centroid ∧
    ((ageUnmatched
        (applyMatches clusters s.minConfirm s.tracks
          (ObjectTracker.assign s.maxMatchDist s.predicted clusters).1)
        (ObjectTracker.assign s.maxMatchDist s.predicted clusters).2.1).getD ti
        defaultTrack).track_id = (s.tracks.getD ti defaultTrack).track_id := by
  have hlen : s.predicted.length = s.tracks.length := by
    rw [ObjectTracker.predicted, List.length_map]
  have hlt := assign_mem_lt s.maxMatchDist s.predicted clusters ti ci h
  have hti : ti < s.tracks.length := hlen ▸ hlt.1
  have hmem : ti ∈ ((ObjectTracker.assign s.maxMatchDist s.predicted
      clusters).1).map Prod.fst := List.mem_map.mpr ⟨(ti, ci), h, rfl⟩
  have hnotun : ti ∉ (ObjectTracker.assign s.maxMatchDist s.predicted
      clusters).2.1 := by
    rw [assign_unmatchedT]
    intro hin
    have h2 := (List.mem_filter.mp hin).2
    simp only [decide_eq_true_eq] at h2
    exact h2 hmem
  have hgetD : (ageUnmatched
      (applyMatches clusters s.minConfirm s.tracks
        (ObjectTracker.assign s.maxMatchDist s.predicted clusters).1)
      (ObjectTracker.assign s.maxMatchDist s.predicted clusters).2.1).getD ti
      defaultTrack =
      matchedTrack clusters s.minConfirm ci (s.tracks.getD ti defaultTrack) := by
    rw [ageUnmatched_getD_not_mem _ _ hnotun,
      applyMatches_getD_matched clusters s.minConfirm _ ti ci
        (assign_fst_nodup s.maxMatchDist s.predicted clusters) h s.tracks hti]
  refine ⟨?_, by rw [hgetD]; rfl, by rw [hgetD]; rfl, by rw [hgetD]; rfl⟩
  have hlen2 : ti < (ageUnmatched
      (applyMatches clusters s.minConfirm s.tracks
        (ObjectTracker.assign s.maxMatchDist s.predicted clusters).1)
      (ObjectTracker.assign s.maxMatchDist s.predicted clusters).2.1).length := by
    rw [ageUnmatched_length, applyMatches_length]
    exact hti
  show _ ∈ (ageUnmatched _ _ ++
      (spawnTracks s.nextId s.minConfirm clusters _).1).filter _
  refine List.mem_filter.mpr ⟨List.mem_append_left _ (getD_mem _ _ _ hlen2), ?_⟩
  rw [hgetD]
  simp [matchedTrack]

/-- Witness for `tracker_matched_velocity`: the single track of `exTracker`
is matched to `exCluster` (distance 100 ≤ gate 800), and its velocity becomes
`(100, 0)`. -/
theorem tracker_matched_velocity_witness :
    ((0, 0) ∈ (ObjectTracker.assign exTracker.maxMatchDist exTracker.predicted
      [exCluster]).1) ∧
    ((ageUnmatched
        (applyMatches [exCluster] exTracker.minConfirm exTracker.tracks
          (ObjectTracker.assign exTracker.maxMatchDist exTracker.predicted
            [exCluster]).1)
        (ObjectTracker.assign exTracker.maxMatchDist exTracker.predicted
          [exCluster]).2.1).getD 0 defaultTrack).velocity =
      ⟨([exCluster].getD 0 defaultCluster).centroid.x -
          (exTracker.tracks.getD 0 defaultTrack).centroid.x,
        ([exCluster].getD 0 defaultCluster).centroid.y -
          (exTracker.tracks.getD 0 defaultTrack).centroid.y⟩ := by
  have h : (0, 0) ∈ (ObjectTracker.assign exTracker.maxMatchDist
      exTracker.predicted [exCluster]).1 := by
    norm_num [ObjectTracker.assign, ObjectTracker.predicted, exTracker, exCluster,
      gatedPairs, sortPairs, insertLe, greedyWalk, lexLe, distSq, sqrtLeQ,
      defaultPoint, defaultCluster, List.range_succ, List.range_zero, List.flatMap_cons,
      List.flatMap_nil, List.filterMap_cons, List.filterMap_nil,
      List.getElem?_cons_zero, Option.getD_some]
  exact ⟨h, (tracker_matched_velocity exTracker [exCluster] 0 0 h).2.1⟩

/-! ### Claim C4: track ids are positive, unique, never reused -/

theorem spawnTracks_fold_spec (minConfirm : ℕ) (clusters : List Cluster)
    (uc : List ℕ) : ∀ (acc : List Track) (nid : ℕ),
    (uc.foldl
      (fun st ci =>
        let c := clusters.getD ci defaultCluster
        (st.1 ++
          [{ track_id := st.2, centroid := c.centroid, velocity := ⟨0, 0⟩,
             boundingRadiusSq := c.boundingRadiusSq, points := c.points,
             age := 1, missing_frames := 0,
             confirmed := decide (minConfirm ≤ 1) }],
         st.2 + 1))
      (acc, nid)).2 = nid + uc.length ∧
    ((uc.foldl
      (fun st ci =>
        let c := clusters.getD ci defaultCluster
        (st.1 ++
          [{ track_id := st.2, centroid := c.centroid, velocity := ⟨0, 0⟩,
             boundingRadiusSq := c.boundingRadiusSq, points := c.points,
             age := 1, missing_frames := 0,
             confirmed := decide (minConfirm ≤ 1) }],
         st.2 + 1))
      (acc, nid)).1).map Track.track_id =
      acc.map Track.track_id ++ List.range' nid uc.length := by
  induction uc with
  | nil => intro acc nid; simp
  | cons ci rest ih =>
    intro acc nid
    rw [List.foldl_cons]
    obtain ⟨ih1, ih2⟩ := ih _ (nid + 1)
    refine ⟨by rw [ih1, List.length_cons]; omega, ?_⟩
    rw [ih2, List.map_append]
    simp [List.range'_succ]

theorem spawnTracks_nextId (nid minConfirm : ℕ) (clusters : List Cluster)
    (uc : List ℕ) :
    (spawnTracks nid minConfirm clusters uc).2 = nid + uc.length :=
  (spawnTracks_fold_spec minConfirm clusters uc [] nid).1

theorem spawnTracks_ids (nid minConfirm : ℕ) (clusters : List Cluster)
    (uc : List ℕ) :
    ((spawnTracks nid minConfirm clusters uc).1).map Track.track_id =
      List.range' nid uc.length := by
  have h := (spawnTracks_fold_spec minConfirm clusters uc [] nid).2
  rw [List.map_nil, List.nil_append] at h
  exact h

theorem modifyIdx_map_eq {α β : Type _} (f : α → α) (g : α → β)
    (hg : ∀ x, g (f x) = g x) (i : ℕ) : ∀ l : List α,
    (modifyIdx l i f).map g = l.map g := by
  induction i with
  | zero =>
    intro l
    cases l with
    | nil => rfl
    | cons a t => simp [modifyIdx, hg]
  | succ i ih =>
    intro l
    cases l with
    | nil => rfl
    | cons a t => simp [modifyIdx, ih]

theorem applyMatches_map_id (clusters : List Cluster) (mc : ℕ)
    (ms : List (ℕ × ℕ)) : ∀ tracks : List Track,
    (applyMatches clusters mc tracks ms).map Track.track_id =
      tracks.map Track.track_id := by
  induction ms with
  | nil => intro tracks; rfl
  | cons m rest ih =>
    intro tracks
    show (applyMatches clusters mc (matchApply clusters mc tracks m) rest).map
      Track.track_id = _
    rw [ih, matchApply,
      modifyIdx_map_eq (matchedTrack clusters mc m.2) Track.track_id
        (fun x => rfl) m.1]

theorem ageUnmatched_map_id (unmatched : List ℕ) : ∀ tracks : List Track,
    (ageUnmatched tracks unmatched).map Track.track_id =
      tracks.map Track.track_id := by
  induction unmatched with
  | nil => intro tracks; rfl
  | cons i rest ih =>
    intro tracks
    show (ageUnmatched (modifyIdx tracks i agedTrack) rest).map Track.track_id = _
    rw [ih, modifyIdx_map_eq agedTrack Track.track_id (fun x => rfl) i]

theorem update_nextId (s : ObjectTracker) (cs : List Cluster) :
    (s.update cs).1.nextId = s.nextId +
      ((ObjectTracker.assign s.maxMatchDist s.predicted cs).2.2).length :=
  spawnTracks_nextId s.nextId s.minConfirm cs _

theorem update_preserves_inv (s : ObjectTracker) (cs : List Cluster)
    (hinv : trackerInv s) : trackerInv (s.update cs).1 := by
  obtain ⟨h1, h2⟩ := hinv
  constructor
  · rw [update_nextId]; omega
  · intro t ht
    have ht2 : t ∈ (ageUnmatched
        (applyMatches cs s.minConfirm s.tracks
          (ObjectTracker.assign s.maxMatchDist s.predicted cs).1)
        (ObjectTracker.assign s.maxMatchDist s.predicted cs).2.1 ++
        (spawnTracks s.nextId s.minConfirm cs
          (ObjectTracker.assign s.maxMatchDist s.predicted cs).2.2).1) :=
      List.mem_filter.mp ht |>.1
    rw [update_nextId]
    rcases List.mem_append.mp ht2 with hold | hnew
    · have hidmem : t.track_id ∈ (ageUnmatched
          (applyMatches cs s.minConfirm s.tracks
            (ObjectTracker.assign s.maxMatchDist s.predicted cs).1)
          (ObjectTracker.assign s.maxMatchDist s.predicted cs).2.1).map
          Track.track_id := List.mem_map.mpr ⟨t, hold, rfl⟩
      rw [ageUnmatched_map_id, applyMatches_map_id] at hidmem
      obtain ⟨t0, ht0, hid0⟩ := List.mem_map.mp hidmem
      have := h2 t0 ht0
      omega
    · have hidmem : t.track_id ∈ ((spawnTracks s.nextId s.minConfirm cs
          (ObjectTracker.assign s.maxMatchDist s.predicted cs).2.2).1).map
          Track.track_id := List.mem_map.mpr ⟨t, hnew, rfl⟩
      rw [spawnTracks_ids] at hidmem
      have := List.mem_range'_1.mp hidmem
      omega

theorem createdIds_eq (s : ObjectTracker) (cs : List Cluster) :
    s.createdIds cs = List.range' s.nextId
      ((ObjectTracker.assign s.maxMatchDist s.predicted cs).2.2).length :=
  spawnTracks_ids s.nextId s.minConfirm cs _

theorem update_emitted_pos (s : ObjectTracker) (cs : List Cluster)
    (hinv : trackerInv s) :
    ∀ i ∈ ((s.update cs).2).map TrackedObject.object_id, 1 ≤ i := by
  intro i hi
  obtain ⟨o, ho, hoid⟩ := List.mem_map.mp hi
  obtain ⟨t, ht, hto⟩ := List.mem_map.mp ho
  have ht2 : t ∈ (s.update cs).1.tracks := List.mem_filter.mp ht |>.1
  have := (update_preserves_inv s cs hinv).2 t ht2
  have hid : o.object_id = t.track_id := by rw [← hto]; rfl
  omega

theorem runCreated_acc (css : List (List Cluster)) :
    ∀ (s : ObjectTracker) (acc : List ℕ),
    (css.foldl
      (fun (acc : ObjectTracker × List ℕ) cs =>
        (acc.1.update cs |>.1, acc.2 ++ acc.1.createdIds cs)) (s, acc)).2 =
      acc ++ s.runCreated css := by
  induction css with
  | nil => intro s acc; simp [ObjectTracker.runCreated]
  | cons cs rest ih =>
    intro s acc
    rw [List.foldl_cons, ih]
    have h2 : s.runCreated (cs :: rest) =
        s.createdIds cs ++ (s.update cs).1.runCreated rest := by
      show (rest.foldl _ ((s.update cs).1, [] ++ s.createdIds cs)).2 = _
      rw [List.nil_append, ih]
    rw [h2, List.append_assoc]

theorem runCreated_spec (css : List (List Cluster)) :
    ∀ s : ObjectTracker, trackerInv s →
    (s.runCreated css).Pairwise (· < ·) ∧
      ∀ i ∈ s.runCreated css, s.nextId ≤ i := by
  induction css with
  | nil => intro s _; simp [ObjectTracker.runCreated]
  | cons cs rest ih =>
    intro s hinv
    have hrec : s.runCreated (cs :: rest) =
        s.createdIds cs ++ (s.update cs).1.runCreated rest := by
      show (rest.foldl _ ((s.update cs).1, [] ++ s.createdIds cs)).2 = _
      rw [List.nil_append, runCreated_acc rest]
    obtain ⟨ihp, ihge⟩ := ih (s.update cs).1 (update_preserves_inv s cs hinv)
    have hnid := update_nextId s cs
    rw [hrec, createdIds_eq]
    constructor
    · apply List.pairwise_append.mpr
      refine ⟨List.pairwise_lt_range' _ _, ihp, ?_⟩
      intro a ha b hb
      have h1 := List.mem_range'_1.mp ha
      have h2 := ihge b hb
      omega
    · intro i hi
      rcases List.mem_append.mp hi with h | h
      · exact (List.mem_range'_1.mp h).1
      · have := ihge i h
        omega

theorem runEmitted_acc (css : List (List Cluster)) :
    ∀ (s : ObjectTracker) (acc : List ℕ),
    (css.foldl
      (fun (acc : ObjectTracker × List ℕ) cs =>
        let r := acc.1.update cs
        (r.1, acc.2 ++ r.2.map TrackedObject.object_id)) (s, acc)).2 =
      acc ++ s.runEmitted css := by
  induction css with
  | nil => intro s acc; simp [ObjectTracker.runEmitted]
  | cons cs rest ih =>
    intro s acc
    rw [List.foldl_cons, ih]
    have h2 : s.runEmitted (cs :: rest) =
        (s.update cs).2.map TrackedObject.object_id ++
          (s.update cs).1.runEmitted rest := by
      show (rest.foldl _ ((s.update cs).1,
        [] ++ (s.update cs).2.map TrackedObject.object_id)).2 = _
      rw [List.nil_append, ih]
    rw [h2, List.append_assoc]

theorem runEmitted_pos (css : List (List Cluster)) :
    ∀ s : ObjectTracker, trackerInv s → ∀ i ∈ s.runEmitted css, 1 ≤ i := by
  induction css with
  | nil => intro s _ i hi; simp [ObjectTracker.runEmitted] at hi
  | cons cs rest ih =>
    intro s hinv i hi
    have hrec : s.runEmitted (cs :: rest) =
        (s.update cs).2.map TrackedObject.object_id ++
          (s.update cs).1.runEmitted rest := by
      show (rest.foldl _ ((s.update cs).1,
        [] ++ (s.update cs).2.map TrackedObject.object_id)).2 = _
      rw [List.nil_append, runEmitted_acc rest]
    rw [hrec] at hi
    rcases List.mem_append.mp hi with h | h
    · exact update_emitted_pos s cs hinv i h
    · exact ih (s.update cs).1 (update_preserves_inv s cs hinv) i h

/-- C4: over any sequence of `update` calls on a fresh tracker (no reset),
the ids of all tracks ever created are strictly increasing in creation order
(hence pairwise distinct and never reused, also after retirement), and every
emitted `object_id` is a positive integer. -/
theorem tracker_ids_unique (mmd : ℚ) (mm mc : ℕ) (css : List (List Cluster)) :
    ((ObjectTracker.init mmd mm mc).runCreated css).Pairwise (· < ·) ∧
    (∀ i ∈ (ObjectTracker.init mmd mm mc).runCreated css, 1 ≤ i) ∧
    ∀ i ∈ (ObjectTracker.init mmd mm mc).runEmitted css, 1 ≤ i := by
  have hinv : trackerInv (ObjectTracker.init mmd mm mc) :=
    ⟨le_refl 1, by simp [ObjectTracker.init]⟩
  obtain ⟨hp, hge⟩ := runCreated_spec css _ hinv
  exact ⟨hp, fun i hi => hge i hi, runEmitted_pos css _ hinv⟩

/-! ### Claim C3: foreground monotonicity in the threshold -/

theorem updatePoint_config (m : BackgroundModel) (p : PolarPoint) :
    (m.updatePoint p).numBins = m.numBins ∧
    (m.updatePoint p).learningRate = m.learningRate ∧
    (m.updatePoint p).threshold = m.threshold ∧
    (m.updatePoint p).minFrames = m.minFrames ∧
    (m.updatePoint p).frameCount = m.frameCount := by
  unfold BackgroundModel.updatePoint
  dsimp only
  by_cases h : m.binCounts (m.angleToBin p.angle_deg) = 0
  · rw [if_pos h]
    exact ⟨rfl, rfl, rfl, rfl, rfl⟩
  · rw [if_neg h]
    cases heq : m.background (m.angleToBin p.angle_deg) with
    | none => exact ⟨rfl, rfl, rfl, rfl, rfl⟩
    | some v =>
      dsimp only
      by_cases hc : v - m.threshold ≤ p.distance_mm
      · rw [if_pos hc]
        exact ⟨rfl, rfl, rfl, rfl, rfl⟩
      · rw [if_neg hc]
        exact ⟨rfl, rfl, rfl, rfl, rfl⟩

theorem updatePoint_binCounts (m : BackgroundModel) (p : PolarPoint) (j : ℕ) :
    (m.updatePoint p).binCounts j =
      if j = m.angleToBin p.angle_deg then m.binCounts j + 1
      else m.binCounts j := by
  unfold BackgroundModel.updatePoint
  dsimp only
  by_cases h : m.binCounts (m.angleToBin p.angle_deg) = 0
  · rw [if_pos h]
  · rw [if_neg h]
    cases heq : m.background (m.angleToBin p.angle_deg) with
    | none => rfl
    | some v =>
      dsimp only
      by_cases hc : v - m.threshold ≤ p.distance_mm
      · rw [if_pos hc]
      · rw [if_neg hc]

theorem updatePoint_background_ne (m : BackgroundModel) (p : PolarPoint) (b : ℕ)
    (hb : b ≠ m.angleToBin p.angle_deg) :
    (m.updatePoint p).background b = m.background b := by
  unfold BackgroundModel.updatePoint
  dsimp only
  by_cases h : m.binCounts (m.angleToBin p.angle_deg) = 0
  · rw [if_pos h]
    exact if_neg hb
  · rw [if_neg h]
    cases heq : m.background (m.angleToBin p.angle_deg) with
    | none => rfl
    | some v =>
      dsimp only
      by_cases hc : v - m.threshold ≤ p.distance_mm
      · rw [if_pos hc]
        exact if_neg hb
      · rw [if_neg hc]

theorem updatePoint_background_bin (m : BackgroundModel) (p : PolarPoint) :
    (m.updatePoint p).background (m.angleToBin p.angle_deg) =
      if m.binCounts (m.angleToBin p.angle_deg) = 0 then some p.distance_mm
      else
        match m.background (m.angleToBin p.angle_deg) with
        | none => none
        | some v =>
          if v - m.threshold ≤ p.distance_mm then
            some (v + m.learningRate * (p.distance_mm - v))
          else some v := by
  by_cases h : m.binCounts (m.angleToBin p.angle_deg) = 0
  · rw [if_pos h]
    unfold BackgroundModel.updatePoint
    dsimp only
    rw [if_pos h]
    simp
  · rw [if_neg h]
    unfold BackgroundModel.updatePoint
    dsimp only
    rw [if_neg h]
    cases heq : m.background (m.angleToBin p.angle_deg) with
    | none => simp [heq]
    | some v =>
      dsimp only
      by_cases hc : v - m.threshold ≤ p.distance_mm
      · rw [if_pos hc, if_pos hc]
        simp
      · rw [if_neg hc, if_neg hc]
        exact heq


theorem angleToBin_congr (m1 m2 : BackgroundModel) (h : m1.numBins = m2.numBins)
    (a : ℚ) : m1.angleToBin a = m2.angleToBin a := by
  unfold BackgroundModel.angleToBin
  rw [h]

theorem bgRel_updatePoint (m1 m2 : BackgroundModel) (p : PolarPoint)
    (h : bgRel m1 m2) : bgRel (m1.updatePoint p) (m2.updatePoint p) := by
  obtain ⟨hbins, hlr, hlr0, hlr1, hT0, hT12, hmin, hfc, hcounts, hbg⟩ := h
  have hbin : m1.angleToBin p.angle_deg = m2.angleToBin p.angle_deg :=
    angleToBin_congr m1 m2 hbins p.angle_deg
  obtain ⟨c1bins, c1lr, c1T, c1min, c1fc⟩ := updatePoint_config m1 p
  obtain ⟨c2bins, c2lr, c2T, c2min, c2fc⟩ := updatePoint_config m2 p
  refine ⟨by rw [c1bins, c2bins, hbins], by rw [c1lr, c2lr, hlr],
    by rw [c1lr]; exact hlr0, by rw [c1lr]; exact hlr1,
    by rw [c1T]; exact hT0, by rw [c1T, c2T]; exact hT12,
    by rw [c1min, c2min, hmin], by rw [c1fc, c2fc, hfc], ?_, ?_⟩
  · intro b
    rw [updatePoint_binCounts, updatePoint_binCounts, hbin, hcounts b]
  · intro b
    by_cases hb : b = m1.angleToBin p.angle_deg
    · subst hb
      rw [updatePoint_background_bin m1 p, hbin, updatePoint_background_bin m2 p]
      by_cases hc0 : m2.binCounts (m2.angleToBin p.angle_deg) = 0
      · rw [if_pos (by rw [hcounts]; exact hc0), if_pos hc0]
        refine ⟨Iff.rfl, ?_⟩
        intro v1 v2 h1 h2
        obtain rfl := Option.some.inj h1
        obtain rfl := Option.some.inj h2
        exact le_refl _
      · rw [if_neg (by rw [hcounts]; exact hc0), if_neg hc0]
        cases heq1 : m1.background (m2.angleToBin p.angle_deg) with
        | none =>
          have heq2 : m2.background (m2.angleToBin p.angle_deg) = none :=
            (hbg _).1.mp heq1
          rw [heq2]
          exact ⟨Iff.rfl, fun v1 v2 h1 _ => by cases h1⟩
        | some v1 =>
          obtain ⟨v2, heq2⟩ : ∃ v2,
              m2.background (m2.angleToBin p.angle_deg) = some v2 := by
            cases hm2 : m2.background (m2.angleToBin p.angle_deg) with
            | none =>
              have := (hbg _).1.mpr hm2
              rw [heq1] at this
              cases this
            | some w => exact ⟨w, rfl⟩
          have hv : v2 ≤ v1 := (hbg _).2 v1 v2 heq1 heq2
          rw [heq2]
          dsimp only
          by_cases hc1 : v1 - m1.threshold ≤ p.distance_mm
          · have hc2 : v2 - m2.threshold ≤ p.distance_mm := by linarith
            rw [if_pos hc1, if_pos hc2]
            refine ⟨by simp, ?_⟩
            intro w1 w2 hw1 hw2
            obtain rfl := Option.some.inj hw1
            obtain rfl := Option.some.inj hw2
            rw [hlr]
            nlinarith [mul_nonneg (by linarith : (0:ℚ) ≤ 1 - m2.learningRate)
              (by linarith : (0:ℚ) ≤ v1 - v2)]
          · by_cases hc2 : v2 - m2.threshold ≤ p.distance_mm
            · rw [if_neg hc1, if_pos hc2]
              refine ⟨by simp, ?_⟩
              intro w1 w2 hw1 hw2
              obtain rfl := Option.some.inj hw1
              obtain rfl := Option.some.inj hw2
              nlinarith [mul_nonneg (by rw [← hlr]; linarith : (0:ℚ) ≤ 1 - m2.learningRate)
                (by linarith : (0:ℚ) ≤ v1 - v2),
                mul_nonneg (by rw [← hlr]; linarith : (0:ℚ) ≤ m2.learningRate)
                (by linarith : (0:ℚ) ≤ v1 - p.distance_mm)]
            · rw [if_neg hc1, if_neg hc2]
              refine ⟨by simp, ?_⟩
              intro w1 w2 hw1 hw2
              obtain rfl := Option.some.inj hw1
              obtain rfl := Option.some.inj hw2
              exact hv
    · have hb2 : b ≠ m2.angleToBin p.angle_deg := by rw [← hbin]; exact hb
      rw [updatePoint_background_ne m1 p b hb, updatePoint_background_ne m2 p b hb2]
      exact hbg b

theorem bgRel_updatePoints (points : List PolarPoint) :
    ∀ m1 m2 : BackgroundModel, bgRel m1 m2 →
    bgRel (points.foldl BackgroundModel.updatePoint m1)
      (points.foldl BackgroundModel.updatePoint m2) := by
  induction points with
  | nil => intro m1 m2 h; exact h
  | cons q rest ih =>
    intro m1 m2 h
    exact ih _ _ (bgRel_updatePoint m1 m2 q h)

theorem bgRel_update (points : List PolarPoint) (m1 m2 : BackgroundModel)
    (h : bgRel m1 m2) : bgRel (m1.update points) (m2.update points) := by
  obtain ⟨a1, a2, a3, a4, a5, a6, a7, a8, a9, a10⟩ :=
    bgRel_updatePoints points m1 m2 h
  exact ⟨a1, a2, a3, a4, a5, a6, a7, congrArg (fun n => n + 1) a8, a9, a10⟩

theorem bgRel_updateMany (scans : List (List PolarPoint)) :
    ∀ m1 m2 : BackgroundModel, bgRel m1 m2 →
    bgRel (m1.updateMany scans) (m2.updateMany scans) := by
  induction scans with
  | nil => intro m1 m2 h; exact h
  | cons sc rest ih =>
    intro m1 m2 h
    exact ih _ _ (bgRel_update sc m1 m2 h)

theorem bgRel_classify_subset (m1 m2 : BackgroundModel) (h : bgRel m1 m2)
    (ps : List PolarPoint) (p : PolarPoint) (hp : p ∈ m2.classify ps) :
    p ∈ m1.classify ps := by
  obtain ⟨hbins, hlr, hlr0, hlr1, hT0, hT12, hmin, hfc, hcounts, hbg⟩ := h
  have hready : m1.isReady = m2.isReady := by
    unfold BackgroundModel.isReady
    rw [hmin, hfc]
  unfold BackgroundModel.classify at hp ⊢
  by_cases hr : m2.isReady = true
  · rw [if_pos hr] at hp
    rw [hready, if_pos hr]
    obtain ⟨hmem, hpred⟩ := List.mem_filter.mp hp
    refine List.mem_filter.mpr ⟨hmem, ?_⟩
    have hbinq := angleToBin_congr m1 m2 hbins p.angle_deg
    cases heq2 : m2.background (m2.angleToBin p.angle_deg) with
    | none =>
      rw [heq2] at hpred
      simp at hpred
    | some v2 =>
      rw [heq2] at hpred
      simp only [decide_eq_true_eq] at hpred
      rw [hbinq]
      cases heq1 : m1.background (m2.angleToBin p.angle_deg) with
      | none =>
        have := (hbg _).1.mp heq1
        rw [heq2] at this
        cases this
      | some v1 =>
        have hv : v2 ≤ v1 := (hbg _).2 v1 v2 heq1 heq2
        simp only [decide_eq_true_eq]
        linarith
  · rw [if_neg hr] at hp
    exact absurd hp (List.not_mem_nil p)

/-- C3: with a valid configuration (`0 ≤ α ≤ 1`, `0 ≤ threshold`), two
background models that share everything but the foreground threshold and
receive the identical sequence of `update` calls satisfy: every point the
larger-threshold model classifies as foreground is also classified as
foreground by the smaller-threshold model.  Raising the threshold never adds
a foreground point. -/
theorem background_threshold_monotone (bins F : ℕ) (lr T1 T2 : ℚ)
    (scans : List (List PolarPoint)) (ps : List PolarPoint) (p : PolarPoint)
    (hlr0 : 0 ≤ lr) (hlr1 : lr ≤ 1) (hT0 : 0 ≤ T1) (hT : T1 ≤ T2)
    (hp : p ∈ ((BackgroundModel.init bins lr T2 F).updateMany scans).classify ps) :
    p ∈ ((BackgroundModel.init bins lr T1 F).updateMany scans).classify ps :=
  bgRel_classify_subset ((BackgroundModel.init bins lr T1 F).updateMany scans)
    ((BackgroundModel.init bins lr T2 F).updateMany scans)
    (bgRel_updateMany scans (BackgroundModel.init bins lr T1 F)
      (BackgroundModel.init bins lr T2 F)
      ⟨rfl, rfl, hlr0, hlr1, hT0, hT, rfl, rfl, fun _ => rfl,
        fun _ => ⟨Iff.rfl, fun v1 v2 h1 _ => by cases h1⟩⟩)
    ps p hp

/-- Witness for `background_threshold_monotone`: one bin, one training scan
at 5000 mm, and a 2000 mm sample that is foreground under both thresholds. -/
theorem background_threshold_monotone_witness :
    ((0 : ℚ) ≤ 1/2 ∧ (1/2 : ℚ) ≤ 1 ∧ (0 : ℚ) ≤ 100 ∧ (100 : ℚ) ≤ 150 ∧
      (⟨0, 2000⟩ : PolarPoint) ∈
        ((BackgroundModel.init 1 (1/2) 150 1).updateMany
          [[⟨0, 5000⟩]]).classify [⟨0, 2000⟩]) ∧
    (⟨0, 2000⟩ : PolarPoint) ∈
      ((BackgroundModel.init 1 (1/2) 100 1).updateMany
        [[⟨0, 5000⟩]]).classify [⟨0, 2000⟩] := by
  have hp : (⟨0, 2000⟩ : PolarPoint) ∈
      ((BackgroundModel.init 1 (1/2) 150 1).updateMany
        [[⟨0, 5000⟩]]).classify [⟨0, 2000⟩] := by
    norm_num [BackgroundModel.updateMany, BackgroundModel.update,
      BackgroundModel.updatePoint, BackgroundModel.classify,
      BackgroundModel.isReady, BackgroundModel.angleToBin, BackgroundModel.init,
      truncQ, List.filter_cons]
  exact ⟨⟨by norm_num, by norm_num, by norm_num, by norm_num, hp⟩,
    background_threshold_monotone 1 1 (1/2) 100 150 [[⟨0, 5000⟩]]
      [⟨0, 2000⟩] ⟨0, 2000⟩ (by norm_num) (by norm_num) (by norm_num)
      (by norm_num) hp⟩

/-! ### Claim C7: static scans and the learned background -/

theorem static_updatePoint (binOf : ℚ → ℕ) (S : List PolarPoint)
    (m : BackgroundModel) (hbin : ∀ a, m.angleToBin a = binOf a)
    (hT : 0 ≤ m.threshold)
    (hconst : ∀ p ∈ S, ∀ r ∈ S, binOf p.angle_deg = binOf r.angle_deg →
      p.distance_mm = r.distance_mm)
    (q : PolarPoint) (hq : q ∈ S)
    (hinv : ∀ p ∈ S, m.background (binOf p.angle_deg) = none ∨
      m.background (binOf p.angle_deg) = some p.distance_mm) :
    ∀ p ∈ S, (m.updatePoint q).background (binOf p.angle_deg) = none ∨
      (m.updatePoint q).background (binOf p.angle_deg) = some p.distance_mm := by
  intro p hp
  by_cases hbp : binOf p.angle_deg = binOf q.angle_deg
  · have hd : p.distance_mm = q.distance_mm := hconst p hp q hq hbp
    rw [hbp, ← hbin q.angle_deg, updatePoint_background_bin]
    by_cases h0 : m.binCounts (m.angleToBin q.angle_deg) = 0
    · rw [if_pos h0]
      right
      rw [hd]
    · rw [if_neg h0, hbin q.angle_deg]
      rcases hinv q hq with hn | hs
      · rw [hn]
        left
        rfl
      · rw [hs]
        dsimp only
        rw [if_pos (by linarith)]
        right
        rw [hd]
        congr 1
        ring
  · rw [updatePoint_background_ne m q _ (by rw [hbin]; exact hbp)]
    exact hinv p hp

theorem static_fold (binOf : ℚ → ℕ) (S : List PolarPoint)
    (hconst : ∀ p ∈ S, ∀ r ∈ S, binOf p.angle_deg = binOf r.angle_deg →
      p.distance_mm = r.distance_mm) :
    ∀ (qs : List PolarPoint) (m : BackgroundModel), (∀ q ∈ qs, q ∈ S) →
    (∀ a, m.angleToBin a = binOf a) → 0 ≤ m.threshold →
    (∀ p ∈ S, m.background (binOf p.angle_deg) = none ∨
      m.background (binOf p.angle_deg) = some p.distance_mm) →
    ((∀ a, (qs.foldl BackgroundModel.updatePoint m).angleToBin a = binOf a) ∧
      0 ≤ (qs.foldl BackgroundModel.updatePoint m).threshold ∧
      ∀ p ∈ S,
        (qs.foldl BackgroundModel.updatePoint m).background (binOf p.angle_deg)
          = none ∨
        (qs.foldl BackgroundModel.updatePoint m).background (binOf p.angle_deg)
          = some p.distance_mm) := by
  intro qs
  induction qs with
  | nil => intro m _ hbin hT hinv; exact ⟨hbin, hT, hinv⟩
  | cons q rest ih =>
    intro m hqs hbin hT hinv
    have hq : q ∈ S := hqs q (List.mem_cons_self _ _)
    have hbin' : ∀ a, (m.updatePoint q).angleToBin a = binOf a := fun a => by
      rw [angleToBin_congr (m.updatePoint q) m (updatePoint_config m q).1 a]
      exact hbin a
    have hT' : 0 ≤ (m.updatePoint q).threshold := by
      rw [(updatePoint_config m q).2.2.1]
      exact hT
    exact ih (m.updatePoint q) (fun r hr => hqs r (List.mem_cons_of_mem _ hr))
      hbin' hT'
      (static_updatePoint binOf S m hbin hT hconst q hq hinv)

theorem static_run (binOf : ℚ → ℕ) (S : List PolarPoint)
    (hconst : ∀ p ∈ S, ∀ r ∈ S, binOf p.angle_deg = binOf r.angle_deg →
      p.distance_mm = r.distance_mm) :
    ∀ (n : ℕ) (m : BackgroundModel),
    (∀ a, m.angleToBin a = binOf a) → 0 ≤ m.threshold →
    (∀ p ∈ S, m.background (binOf p.angle_deg) = none ∨
      m.background (binOf p.angle_deg) = some p.distance_mm) →
    ((∀ a, (m.updateMany (List.replicate n S)).angleToBin a = binOf a) ∧
      0 ≤ (m.updateMany (List.replicate n S)).threshold ∧
      ∀ p ∈ S,
        (m.updateMany (List.replicate n S)).background (binOf p.angle_deg)
          = none ∨
        (m.updateMany (List.replicate n S)).background (binOf p.angle_deg)
          = some p.distance_mm) := by
  intro n
  induction n with
  | zero => intro m hbin hT hinv; exact ⟨hbin, hT, hinv⟩
  | succ k ih =>
    intro m hbin hT hinv
    rw [List.replicate_succ]
    obtain ⟨f1, f2, f3⟩ := static_fold binOf S hconst S m (fun q hq => hq)
      hbin hT hinv
    have hbin2 : ∀ a, (m.update S).angleToBin a = binOf a := f1
    have hT2 : 0 ≤ (m.update S).threshold := f2
    have hinv2 : ∀ p ∈ S, (m.update S).background (binOf p.angle_deg) = none ∨
        (m.update S).background (binOf p.angle_deg) = some p.distance_mm := f3
    exact ih (m.update S) hbin2 hT2 hinv2

theorem static_classify (m : BackgroundModel) (S : List PolarPoint)
    (hT : 0 ≤ m.threshold)
    (hinv : ∀ p ∈ S, m.background (m.angleToBin p.angle_deg) = none ∨
      m.background (m.angleToBin p.angle_deg) = some p.distance_mm) :
    m.classify S = [] := by
  unfold BackgroundModel.classify
  by_cases hr : m.isReady = true
  · rw [if_pos hr]
    refine List.filter_eq_nil_iff.mpr ?_
    intro p hp
    rcases hinv p hp with hn | hs
    · rw [hn]
      simp
    · rw [hs]
      simp only [decide_eq_true_eq]
      intro hcontra
      linarith
  · rw [if_neg hr]

/-- C7 (amended): for a scan whose points have a constant range per angular
*bin* (not merely per angle) and a nonnegative threshold, after feeding the
scan to `update` at least `min_learning_frames + 1` times, `classify` on the
same scan returns the empty list. -/
theorem background_static_scan_classify_empty (bins F n : ℕ) (lr T : ℚ)
    (S : List PolarPoint) (hT : 0 ≤ T)
    (hconst : ∀ p ∈ S, ∀ r ∈ S,
      (BackgroundModel.init bins lr T F).angleToBin p.angle_deg =
        (BackgroundModel.init bins lr T F).angleToBin r.angle_deg →
      p.distance_mm = r.distance_mm)
    (_hn : F + 1 ≤ n) :
    ((BackgroundModel.init bins lr T F).updateMany
      (List.replicate n S)).classify S = [] := by
  obtain ⟨f1, f2, f3⟩ := static_run
    ((BackgroundModel.init bins lr T F).angleToBin) S hconst n
    (BackgroundModel.init bins lr T F) (fun _ => rfl) hT
    (fun p _ => Or.inl rfl)
  refine static_classify _ S f2 ?_
  intro p hp
  rcases f3 p hp with hn1 | hs1
  · left
    rw [f1 p.angle_deg]
    exact hn1
  · right
    rw [f1 p.angle_deg]
    exact hs1

/-- C7 counterexample: `exScan` has constant ranges per *angle* (the same
scan is fed twice, `min_learning_frames + 1 = 2` times), but its two angles
0° and 0.25° share bin 0 (width 0.5°) with ranges 1000 and 5000.  The EMA
(α = 1/2, seeded at 1000) is dragged to 4000 by the farther point, so
`classify` flags the 1000 mm point as foreground instead of returning `[]`. -/
theorem background_static_scan_counterexample :
    ((BackgroundModel.init 720 (1/2) 150 1).updateMany
      (List.replicate 2 exScan)).classify exScan = [⟨0, 1000⟩] ∧
    ((BackgroundModel.init 720 (1/2) 150 1).updateMany
      (List.replicate 2 exScan)).classify exScan ≠ [] := by
  have h : ((BackgroundModel.init 720 (1/2) 150 1).updateMany
      (List.replicate 2 exScan)).classify exScan = [⟨0, 1000⟩] := by
    norm_num [BackgroundModel.updateMany, BackgroundModel.update,
      BackgroundModel.updatePoint, BackgroundModel.classify,
      BackgroundModel.isReady, BackgroundModel.angleToBin, BackgroundModel.init,
      truncQ, exScan, List.replicate, List.filter_cons]
  exact ⟨h, by rw [h]; simp⟩

/-- Witness for `background_static_scan_classify_empty`: a single-point scan
(trivially constant per bin) fed twice with `min_learning_frames = 1`. -/
theorem background_static_scan_classify_empty_witness :
    ((0 : ℚ) ≤ 150 ∧
      (∀ p ∈ [(⟨0, 5000⟩ : PolarPoint)], ∀ r ∈ [(⟨0, 5000⟩ : PolarPoint)],
        (BackgroundModel.init 720 (1/50) 150 1).angleToBin p.angle_deg =
          (BackgroundModel.init 720 (1/50) 150 1).angleToBin r.angle_deg →
        p.distance_mm = r.distance_mm) ∧
      1 + 1 ≤ 2) ∧
    ((BackgroundModel.init 720 (1/50) 150 1).updateMany
      (List.replicate 2 [⟨0, 5000⟩])).classify [⟨0, 5000⟩] = [] := by
  have hconst : ∀ p ∈ [(⟨0, 5000⟩ : PolarPoint)],
      ∀ r ∈ [(⟨0, 5000⟩ : PolarPoint)],
      (BackgroundModel.init 720 (1/50) 150 1).angleToBin p.angle_deg =
        (BackgroundModel.init 720 (1/50) 150 1).angleToBin r.angle_deg →
      p.distance_mm = r.distance_mm := by
    intro p hp r hr _
    rw [List.mem_singleton.mp hp, List.mem_singleton.mp hr]
  exact ⟨⟨by norm_num, hconst, by norm_num⟩,
    background_static_scan_classify_empty 720 1 2 (1/50) 150 [⟨0, 5000⟩]
      (by norm_num) hconst (by norm_num)⟩

/-! ### Claim C1: properties of emitted clusters -/

theorem set_of_length_le {α : Type _} (l : List α) (i : ℕ) (a : α)
    (h : l.length ≤ i) : l.set i a = l := by
  induction l generalizing i with
  | nil => rfl
  | cons b t ih =>
    cases i with
    | zero => simp at h
    | succ i => simpa [List.set] using ih i (by simpa using h)

theorem getD_replicate {α : Type _} (n j : ℕ) (a : α) :
    (List.replicate n a).getD j a = a := by
  induction n generalizing j with
  | zero => rfl
  | succ k ih =>
    cases j with
    | zero => rfl
    | succ j => simp only [List.replicate, List.getD_cons_succ]; exact ih j

theorem expand_nil (pts : List CartesianPoint) (cells : ℤ × ℤ → List ℕ)
    (eps : ℚ) (m fuel : ℕ) (labels : List ℤ) (cid : ℤ) :
    expand pts cells eps m (fuel + 1) labels cid [] = labels := rfl

theorem expand_step (pts : List CartesianPoint) (cells : ℤ × ℤ → List ℕ)
    (eps : ℚ) (m fuel : ℕ) (labels : List ℤ) (cid : ℤ) (q : ℕ) (rest : List ℕ) :
    expand pts cells eps m (fuel + 1) labels cid (q :: rest) =
      if labels.getD q (-1) = -2 then
        expand pts cells eps m fuel (labels.set q cid) cid rest
      else if labels.getD q (-1) ≠ -1 then
        expand pts cells eps m fuel labels cid rest
      else
        expand pts cells eps m fuel (labels.set q cid) cid
          (if m ≤ (rangeQuery pts cells eps q).length then
            rest ++ rangeQuery pts cells eps q else rest) := rfl

theorem expand_spec (pts : List CartesianPoint) (cells : ℤ × ℤ → List ℕ)
    (eps : ℚ) (m : ℕ) : ∀ (fuel : ℕ) (seeds : List ℕ) (labels : List ℤ)
    (cid : ℤ), 0 ≤ cid → goodLabels labels (cid + 1) →
    ((expand pts cells eps m fuel labels cid seeds).length = labels.length ∧
     goodLabels (expand pts cells eps m fuel labels cid seeds) (cid + 1) ∧
     ∀ j, 0 ≤ labels.getD j (-1) →
       (expand pts cells eps m fuel labels cid seeds).getD j (-1) =
         labels.getD j (-1)) := by
  intro fuel
  induction fuel with
  | zero => intro seeds labels cid h0 hg; exact ⟨rfl, hg, fun j _ => rfl⟩
  | succ f ih =>
    intro seeds labels cid h0 hg
    cases seeds with
    | nil => exact ⟨rfl, hg, fun j _ => rfl⟩
    | cons q rest =>
      rw [expand_step]
      have hq2 : ¬ labels.getD q (-1) = -2 := by
        rcases hg q with h | h <;> omega
      rw [if_neg hq2]
      by_cases hql : labels.getD q (-1) ≠ -1
      · rw [if_pos hql]
        exact ih rest labels cid h0 hg
      · rw [if_neg hql]
        push_neg at hql
        have hg' : goodLabels (labels.set q cid) (cid + 1) := by
          intro j
          by_cases hj : q = j
          · subst hj
            by_cases hlen : q < labels.length
            · right
              rw [getD_set_self _ _ _ _ hlen]
              omega
            · push_neg at hlen
              rw [set_of_length_le _ _ _ hlen]
              exact hg q
          · rw [getD_set_ne _ _ _ _ _ hj]
            exact hg j
        obtain ⟨l1, l2, l3⟩ := ih
          (if m ≤ (rangeQuery pts cells eps q).length then
            rest ++ rangeQuery pts cells eps q else rest)
          (labels.set q cid) cid h0 hg'
        refine ⟨by rw [l1, List.length_set], l2, ?_⟩
        intro j hj
        have hjq : q ≠ j := by
          intro he
          rw [he] at hql
          omega
        rw [l3 j (by rw [getD_set_ne _ _ _ _ _ hjq]; exact hj),
          getD_set_ne _ _ _ _ _ hjq]

theorem dbscan_fold_spec (pts : List CartesianPoint) (cells : ℤ × ℤ → List ℕ)
    (eps : ℚ) (m fuel n : ℕ) :
    ∀ (is : List ℕ) (st : List ℤ × ℤ), (∀ i ∈ is, i < n) →
    st.1.length = n → 0 ≤ st.2 → goodLabels st.1 st.2 →
    (∀ l : ℤ, 0 ≤ l → l < st.2 → ∃ j, j < n ∧ st.1.getD j (-1) = l) →
    ((is.foldl (dbscanStep pts cells eps m fuel) st).1.length = n ∧
     0 ≤ (is.foldl (dbscanStep pts cells eps m fuel) st).2 ∧
     goodLabels (is.foldl (dbscanStep pts cells eps m fuel) st).1
       (is.foldl (dbscanStep pts cells eps m fuel) st).2 ∧
     ∀ l : ℤ, 0 ≤ l → l < (is.foldl (dbscanStep pts cells eps m fuel) st).2 →
       ∃ j, j < n ∧
         (is.foldl (dbscanStep pts cells eps m fuel) st).1.getD j (-1) = l) := by
  intro is
  induction is with
  | nil => intro st _ h1 h2 h3 h4; exact ⟨h1, h2, h3, h4⟩
  | cons i rest ih =>
    intro st hmem h1 h2 h3 h4
    rw [List.foldl_cons]
    have hi : i < n := hmem i (List.mem_cons_self _ _)
    have hrest : ∀ x ∈ rest, x < n := fun x hx => hmem x (List.mem_cons_of_mem _ hx)
    by_cases hc1 : st.1.getD i (-1) ≠ -1
    · rw [show dbscanStep pts cells eps m fuel st i = st from by
        rw [dbscanStep, if_pos hc1]]
      exact ih st hrest h1 h2 h3 h4
    · by_cases hc2 : (rangeQuery pts cells eps i).length < m
      · rw [show dbscanStep pts cells eps m fuel st i = st from by
          rw [dbscanStep, if_neg hc1]
          dsimp only
          rw [if_pos hc2]]
        exact ih st hrest h1 h2 h3 h4
      · have hstep : dbscanStep pts cells eps m fuel st i =
            (expand pts cells eps m fuel (st.1.set i st.2) st.2
              (rangeQuery pts cells eps i), st.2 + 1) := by
          rw [dbscanStep, if_neg hc1]
          dsimp only
          rw [if_neg hc2]
        rw [hstep]
        push_neg at hc1
        have hilen : i < st.1.length := by rw [h1]; exact hi
        have hg' : goodLabels (st.1.set i st.2) (st.2 + 1) := by
          intro j
          by_cases hj : i = j
          · subst hj
            right
            rw [getD_set_self _ _ _ _ hilen]
            omega
          · rw [getD_set_ne _ _ _ _ _ hj]
            rcases h3 j with h | h
            · left; exact h
            · right; omega
        obtain ⟨e1, e2, e3⟩ := expand_spec pts cells eps m fuel
          (rangeQuery pts cells eps i) (st.1.set i st.2) st.2 h2 hg'
        apply ih
        · exact hrest
        · dsimp only
          rw [e1, List.length_set]
          exact h1
        · dsimp only
          omega
        · exact e2
        · intro l hl0 hlt
          dsimp only at hlt ⊢
          by_cases heq : l = st.2
          · subst heq
            refine ⟨i, hi, ?_⟩
            rw [e3 i (by rw [getD_set_self _ _ _ _ hilen]; exact h2),
              getD_set_self _ _ _ _ hilen]
          · have hlt' : l < st.2 := by omega
            obtain ⟨j, hjn, hjl⟩ := h4 l hl0 hlt'
            have hji : i ≠ j := by
              intro he
              rw [← he] at hjl
              omega
            refine ⟨j, hjn, ?_⟩
            rw [e3 j (by rw [getD_set_ne _ _ _ _ _ hji, hjl]; exact hl0),
              getD_set_ne _ _ _ _ _ hji]
            exact hjl

theorem gridDbscan_spec (pts : List CartesianPoint) (eps : ℚ) (m : ℕ) :
    (gridDbscan pts eps m).length = pts.length ∧
    ∃ cid : ℤ, 0 ≤ cid ∧ goodLabels (gridDbscan pts eps m) cid ∧
      ∀ l : ℤ, 0 ≤ l → l < cid →
        ∃ j, j < pts.length ∧ (gridDbscan pts eps m).getD j (-1) = l := by
  obtain ⟨a1, a2, a3, a4⟩ := dbscan_fold_spec pts (buildCells pts eps) eps m
    (dbscanFuel pts.length) pts.length (List.range pts.length)
    (List.replicate pts.length (-1), 0)
    (fun i hi => List.mem_range.mp hi)
    (by simp)
    (le_refl 0)
    (fun j => Or.inl (getD_replicate _ _ _))
    (fun l hl0 hlt => absurd (lt_of_le_of_lt hl0 hlt) (lt_irrefl 0))
  exact ⟨a1,
    ((List.range pts.length).foldl
      (dbscanStep pts (buildCells pts eps) eps m (dbscanFuel pts.length))
      (List.replicate pts.length (-1), 0)).2, a2, a3, a4⟩

/-- C1 (amended): every cluster emitted by `cluster_points` satisfies the
radius gate — `max_cluster_radius_mm` is nonnegative and the squared
bounding radius is at most its square, i.e. `bounding_radius_mm ≤
max_cluster_radius_mm` — and has at least one member point.  (The original
claim's `min_samples` lower bound on the member count does not hold; see the
counterexample.) -/
theorem cluster_points_emitted (points : List CartesianPoint) (eps_mm : ℚ)
    (min_samples : ℕ) (max_cluster_radius_mm : ℚ) (C : Cluster)
    (hC : C ∈ cluster_points points eps_mm min_samples max_cluster_radius_mm) :
    (0 ≤ max_cluster_radius_mm ∧
      C.boundingRadiusSq ≤ max_cluster_radius_mm * max_cluster_radius_mm) ∧
    C.points ≠ [] := by
  unfold cluster_points at hC
  by_cases hlen : points.length < min_samples
  · rw [if_pos hlen] at hC
    exact absurd hC (List.not_mem_nil C)
  · rw [if_neg hlen] at hC
    dsimp only at hC
    obtain ⟨l, hl, hfl⟩ := List.mem_filterMap.mp hC
    obtain ⟨hlenL, cid, hcid0, hgood, hpop⟩ :=
      gridDbscan_spec points eps_mm min_samples
    split at hfl
    · cases hfl
    · next hgt =>
      have hCeq := (Option.some.inj hfl).symm
      rw [sqrtGtQ, not_or, not_lt, not_lt] at hgt
      constructor
      · rw [hCeq]
        exact ⟨hgt.1, hgt.2⟩
      · rw [hCeq]
        have hboundall : ∀ x ∈ gridDbscan points eps_mm min_samples, x < cid := by
          intro x hx
          obtain ⟨j, hj, hjx⟩ := List.mem_iff_getElem.mp hx
          have hgd : (gridDbscan points eps_mm min_samples).getD j (-1) = x := by
            rw [List.getD_eq_getElem _ _ hj]
            exact hjx
          rcases hgood j with h | h
          · rw [hgd] at h
            omega
          · rw [hgd] at h
            exact h.2
        have hmax : (gridDbscan points eps_mm min_samples).foldl max (-1) < cid :=
          foldl_max_lt _ cid (-1) (by omega) hboundall
        have hlint : (l : ℤ) < cid := by
          have := List.mem_range.mp hl
          omega
        obtain ⟨j, hjn, hjl⟩ := hpop (l : ℤ) (by omega) hlint
        have hjlab : j < (gridDbscan points eps_mm min_samples).length := by
          rw [hlenL]
          exact hjn
        have hzip : ((gridDbscan points eps_mm min_samples).getD j (-1),
            points.getD j defaultPoint) ∈
            (gridDbscan points eps_mm min_samples).zip points :=
          zip_getD_mem _ _ j _ _ hjlab hjn
        rw [hjl] at hzip
        have hmem2 : points.getD j defaultPoint ∈
            ((gridDbscan points eps_mm min_samples).zip points).filterMap
              fun lp => if lp.1 = (l : ℤ) then some lp.2 else none :=
          List.mem_filterMap.mpr
            ⟨((l : ℤ), points.getD j defaultPoint), hzip, by rw [if_pos rfl]⟩
        exact List.ne_nil_of_mem hmem2

set_option maxHeartbeats 1000000 in
theorem exPts_rq0 : rangeQuery exPts (buildCells exPts 1) 1 0 = [3, 0, 2, 1] := by
  norm_num [rangeQuery, buildCells, cellOf, distSq, exPts, List.enum,
    List.enumFrom, List.flatMap_cons, List.flatMap_nil, List.filter_cons]

set_option maxHeartbeats 1000000 in
theorem exPts_rq1 : rangeQuery exPts (buildCells exPts 1) 1 1 = [0, 1, 4] := by
  norm_num [rangeQuery, buildCells, cellOf, distSq, exPts, List.enum,
    List.enumFrom, List.flatMap_cons, List.flatMap_nil, List.filter_cons]

set_option maxHeartbeats 1000000 in
theorem exPts_rq2 : rangeQuery exPts (buildCells exPts 1) 1 2 = [0, 2, 4] := by
  norm_num [rangeQuery, buildCells, cellOf, distSq, exPts, List.enum,
    List.enumFrom, List.flatMap_cons, List.flatMap_nil, List.filter_cons]

set_option maxHeartbeats 1000000 in
theorem exPts_rq3 : rangeQuery exPts (buildCells exPts 1) 1 3 = [3, 0] := by
  norm_num [rangeQuery, buildCells, cellOf, distSq, exPts, List.enum,
    List.enumFrom, List.flatMap_cons, List.flatMap_nil, List.filter_cons]

set_option maxHeartbeats 1000000 in
theorem exPts_rq4 : rangeQuery exPts (buildCells exPts 1) 1 4 = [2, 1, 4, 5] := by
  norm_num [rangeQuery, buildCells, cellOf, distSq, exPts, List.enum,
    List.enumFrom, List.flatMap_cons, List.flatMap_nil, List.filter_cons]

set_option maxHeartbeats 1000000 in
theorem exPts_rq5 : rangeQuery exPts (buildCells exPts 1) 1 5 = [4, 5] := by
  norm_num [rangeQuery, buildCells, cellOf, distSq, exPts, List.enum,
    List.enumFrom, List.flatMap_cons, List.flatMap_nil, List.filter_cons]

set_option maxHeartbeats 2000000 in
theorem exPts_labels : gridDbscan exPts 1 4 = [0, 0, 0, 0, 1, 1] := by
  have hlen : exPts.length = 6 := by norm_num [exPts]
  have hrange : List.range 6 = [0, 1, 2, 3, 4, 5] := by decide
  have hrep : List.replicate 6 (-1 : ℤ) = [-1, -1, -1, -1, -1, -1] := by decide
  rw [gridDbscan, hlen, hrange, hrep]
  norm_num [dbscanStep, dbscanFuel, expand_step, expand_nil,
    exPts_rq0, exPts_rq1, exPts_rq2, exPts_rq3, exPts_rq4, exPts_rq5,
    List.foldl_cons, List.foldl_nil, List.getD_cons_zero, List.getD_cons_succ,
    List.set]

/-- C1 counterexample: on `exPts` with `eps = 1`, `min_samples = 4`,
`max_cluster_radius_mm = 10`, the second emitted cluster is `{(1,1),
(3/2, 3/2)}` — only 2 members, below `min_samples = 4` — because points 1
and 2 are density-reachable from point 4 but already belong to the first
cluster.  So `|C.points| ≥ min_samples` fails for an emitted cluster. -/
theorem cluster_points_min_samples_counterexample :
    ∃ C ∈ cluster_points exPts 1 4 10, C.points.length < 4 := by
  rw [cluster_points]
  dsimp only
  rw [exPts_labels, if_neg (by norm_num [exPts])]
  refine ⟨⟨⟨5/4, 5/4⟩, [⟨1, 1⟩, ⟨3/2, 3/2⟩], 1/8⟩,
    List.mem_filterMap.mpr ⟨1, by decide, ?_⟩, by norm_num⟩
  norm_num [exPts, distSq, List.zip_cons_cons, List.filterMap_cons,
    List.foldl_cons, List.foldl_nil, max_def]

/-- Witness for `cluster_points_emitted`: the first cluster emitted on
`exPts` has radius² = 17/16 ≤ 10² and four member points. -/
theorem cluster_points_emitted_witness :
    ((⟨⟨0, 1/4⟩, [⟨0, 0⟩, ⟨1, 0⟩, ⟨0, 1⟩, ⟨-1, 0⟩], 17/16⟩ : Cluster) ∈
      cluster_points exPts 1 4 10) ∧
    ((0 ≤ (10 : ℚ) ∧
      (⟨⟨0, 1/4⟩, [⟨0, 0⟩, ⟨1, 0⟩, ⟨0, 1⟩, ⟨-1, 0⟩], 17/16⟩ :
        Cluster).boundingRadiusSq ≤ (10 : ℚ) * 10) ∧
      (⟨⟨0, 1/4⟩, [⟨0, 0⟩, ⟨1, 0⟩, ⟨0, 1⟩, ⟨-1, 0⟩], 17/16⟩ :
        Cluster).points ≠ []) := by
  have h : (⟨⟨0, 1/4⟩, [⟨0, 0⟩, ⟨1, 0⟩, ⟨0, 1⟩, ⟨-1, 0⟩], 17/16⟩ : Cluster) ∈
      cluster_points exPts 1 4 10 := by
    rw [cluster_points]
    dsimp only
    rw [exPts_labels, if_neg (by norm_num [exPts])]
    refine List.mem_filterMap.mpr ⟨0, by decide, ?_⟩
    norm_num [exPts, distSq, List.zip_cons_cons, List.filterMap_cons,
      List.foldl_cons, List.foldl_nil, max_def]
  exact ⟨h, cluster_points_emitted exPts 1 4 10 _ h⟩
